import Mathlib

/-!
Verification of the AFSUAM beam-steering and telemetry aggregation engine.

The definitions below are a shallow embedding of the Python sources:
`src/core/beam_lut.py` (CorrectedBeamLUT, PhaseLUT), `src/core/tag_manager.py`
(Tag, TagManager), `src/protocols/base.py` (BaseProtocol helpers and result
records) and `src/protocols/afsuam.py` (AFSUAMProtocol.run and _collect_step).
Python floats are modelled by rationals; Python dicts by insertion-ordered
association lists; the telemetry source and the cooperative stop flag are
modelled as explicit input streams.
-/

/-- Python `x % m` for floats (`m > 0`): `x - m * floor (x / m)`. -/
def pymod (x m : ℚ) : ℚ := x - m * ⌊x / m⌋

/-- Round a rational to the nearest integer, ties to even
(the behaviour of Python's built-in `round`). -/
def roundTiesEven (x : ℚ) : ℤ :=
  let f : ℤ := ⌊x⌋
  let r : ℚ := x - f
  if r < 1/2 then f
  else if 1/2 < r then f + 1
  else if f % 2 = 0 then f else f + 1

/-- Python `round(x, 1)`: round to one decimal place, ties to even. -/
def pyRound1 (x : ℚ) : ℚ := (roundTiesEven (10 * x) : ℚ) / 10

/-- Clamp a voltage into the hardware safety bound `[0, 8.5]`
(`max(0.0, min(8.5, v))` in the source). -/
def clampV (v : ℚ) : ℚ := max 0 (min (17/2) v)

/-- The value at `x` of the line through points `p` and `q`. -/
def interpSeg (p q : ℚ × ℚ) (x : ℚ) : ℚ :=
  p.2 + (x - p.1) * (q.2 - p.2) / (q.1 - p.1)

/-- Piecewise-linear interpolation through a list of `(x, y)` points with
linear extrapolation outside the sampled range: the model of
`scipy.interpolate.interp1d(kind="linear", fill_value="extrapolate")`. -/
def interpPL : List (ℚ × ℚ) → ℚ → ℚ
  | [], _ => 0
  | [_], _ => 0
  | [p, q], x => interpSeg p q x
  | p :: q :: r :: rest, x =>
      if x ≤ q.1 then interpSeg p q x else interpPL (q :: r :: rest) x

/-- The table is strictly increasing in both coordinates. -/
def TableMono : List (ℚ × ℚ) → Prop
  | [] => True
  | [_] => True
  | p :: q :: rest => (p.1 < q.1 ∧ p.2 < q.2) ∧ TableMono (q :: rest)

instance tableMonoDec : (l : List (ℚ × ℚ)) → Decidable (TableMono l)
  | [] => Decidable.isTrue trivial
  | [_] => Decidable.isTrue trivial
  | p :: q :: rest =>
      have : Decidable (TableMono (q :: rest)) := tableMonoDec (q :: rest)
      inferInstanceAs (Decidable ((p.1 < q.1 ∧ p.2 < q.2) ∧ TableMono (q :: rest)))

/-- Swap the two coordinates of every point. -/
def swapPts (l : List (ℚ × ℚ)) : List (ℚ × ℚ) := l.map Prod.swap

/-- One row of the angle-to-voltage table: `(Angle_Cmd_Deg, V_CH1, V_CH2)`. -/
abbrev AngleRow := ℚ × ℚ × ℚ

/-- `CorrectedBeamLUT` (src/core/beam_lut.py): the angle→voltage table split
by port configuration, plus the `loaded` flag. -/
structure CorrectedBeamLUT where
  loaded : Bool
  config0 : List AngleRow
  config1 : List AngleRow
deriving DecidableEq

/-- `CorrectedBeamLUT.get_voltages`: interpolate both channel curves at the
target angle and clamp each result to `[0, 8.5]`; `(0, 0)` when nothing is
loaded for the effective port configuration. -/
def get_voltages (lut : CorrectedBeamLUT) (port_config : ℤ) (target_angle : ℚ) :
    ℚ × ℚ :=
  if lut.loaded = false then (0, 0) else
  let config : ℤ := if port_config = 0 ∨ port_config = 1 then port_config else 0
  let tbl : List AngleRow := if config = 1 then lut.config1 else lut.config0
  if tbl.isEmpty then (0, 0)
  else
    (clampV (interpPL (tbl.map (fun row => (row.1, row.2.1))) target_angle),
     clampV (interpPL (tbl.map (fun row => (row.1, row.2.2))) target_angle))

/-- Stable ascending insertion into a sorted list of rationals. -/
def insertAsc (x : ℚ) : List ℚ → List ℚ
  | [] => [x]
  | y :: ys => if y ≤ x then y :: insertAsc x ys else x :: y :: ys

/-- Ascending sort of a list of rationals (model of Python `sorted`). -/
def sortAsc : List ℚ → List ℚ
  | [] => []
  | x :: xs => insertAsc x (sortAsc xs)

/-- `CorrectedBeamLUT.get_available_angles`: the sorted list of distinct
commanded angles present in the table for the port configuration. -/
def get_available_angles (lut : CorrectedBeamLUT) (port_config : ℤ) : List ℚ :=
  let tbl := if port_config = 0 then lut.config0 else lut.config1
  sortAsc (tbl.map (fun row => row.1)).dedup

/-- Python `max(angles)` over a nonempty list. -/
def maxList (l : List ℚ) : ℚ := l.foldl max (l.headI)

/-- Python `min(angles)` over a nonempty list. -/
def minList (l : List ℚ) : ℚ := l.foldl min (l.headI)

/-- Python `min(angles, key=abs)`: the first element of least absolute value. -/
def minAbsList (l : List ℚ) : ℚ :=
  l.foldl (fun best a => if |a| < |best| then a else best) (l.headI)

/-- `CorrectedBeamLUT.get_beam_presets`: `(LEFT, CENTER, RIGHT)` =
(max angle, angle nearest zero, min angle), with the fixed fallback
`(30, 0, -30)` when no angle data exists. -/
def get_beam_presets (lut : CorrectedBeamLUT) (port_config : ℤ) : ℚ × ℚ × ℚ :=
  let angles := get_available_angles lut port_config
  if angles.isEmpty then (30, 0, -30)
  else (maxList angles, minAbsList angles, minList angles)

/-- `PhaseLUT` (src/core/beam_lut.py): calibration columns
`Control Voltage (V)`, `Olcum1_Shift`, `Olcum2_Shift`. -/
structure PhaseLUT where
  loaded : Bool
  voltage : List ℚ
  phase1 : List ℚ
  phase4 : List ℚ
deriving DecidableEq

/-- The fallback calibration data hard-coded in `PhaseLUT._load`:
voltages `0.0, 8.5`, phase shifts `0.0, 363.42` / `0.0, 363.43`. -/
def fallbackPhaseLUT : PhaseLUT :=
  { loaded := true
    voltage := [0, 17/2]
    phase1 := [0, 18171/50]
    phase4 := [0, 36343/100] }

/-- `PhaseLUT.get_voltage`: phase → voltage calibration interpolation,
result clamped to `[0, 8.5]`. -/
def PhaseLUT.get_voltage (lut : PhaseLUT) (target_phase : ℚ) (channel : ℤ) : ℚ :=
  if lut.loaded = false then 0 else
  let v : ℚ :=
    if channel = 4 then interpPL (lut.phase4.zip lut.voltage) target_phase
    else interpPL (lut.phase1.zip lut.voltage) target_phase
  max 0 (min (17/2) v)

/-- `PhaseLUT.get_phase`: voltage → phase calibration interpolation; the
voltage is clamped to `[0, 8.5]` before lookup and the phase is reduced
modulo 360. -/
def PhaseLUT.get_phase (lut : PhaseLUT) (voltage : ℚ) (channel : ℤ) : ℚ :=
  if lut.loaded = false then 0 else
  let v : ℚ := max 0 (min (17/2) voltage)
  if channel = 4 then pymod (interpPL (lut.voltage.zip lut.phase4) v) 360
  else pymod (interpPL (lut.voltage.zip lut.phase1) v) 360

/-- `Tag` (src/core/tag_manager.py): a registered RFID tag. -/
structure Tag where
  suffix : String
  label : String
  location : String
deriving DecidableEq

/-- `Tag.matches_epc`: `epc.upper().endswith(self.suffix.upper())`. -/
def Tag.matches_epc (t : Tag) (epc : String) : Bool :=
  (t.suffix.data.map Char.toUpper).isSuffixOf (epc.data.map Char.toUpper)

/-- One telemetry reading as stored by the reader map (EPC → reading). -/
structure Reading where
  rssi : ℚ
  count : ℕ
  phase : ℚ
  antenna : ℤ
deriving DecidableEq

/-- The reader's snapshot: an insertion-ordered map EPC → reading. -/
abbrev Inventory := List (String × Reading)

/-- `epc[-4:] if len(epc) >= 4 else ""` (src/protocols/afsuam.py, _collect_step). -/
def last4 (epc : String) : String :=
  if 4 ≤ epc.data.length then ⟨epc.data.drop (epc.data.length - 4)⟩ else ""

/-- Python `epc.endswith(suffix)`. -/
def endsWith (epc suffix : String) : Bool := suffix.data.isSuffixOf epc.data

/-- `TagManager.get_missed_tags`: registry tags whose suffix is not in the
seen set, in registry order. -/
def get_missed_tags (tags : List Tag) (seen : Finset String) : List Tag :=
  tags.filter (fun t => t.suffix ∉ seen)

/-- `BaseProtocol._split_inventory_by_antenna`: antenna 2 versus everything
else (treated as antenna 1), preserving insertion order. -/
def splitInventory (inv : Inventory) : Inventory × Inventory :=
  (inv.filter (fun p => p.2.antenna ≠ 2), inv.filter (fun p => p.2.antenna = 2))

/-- Outcome of `BaseProtocol._find_tag_info`. -/
structure TagInfo where
  seen : Bool
  rssi : Option ℚ
  count : ℕ
  phase : Option ℚ
deriving DecidableEq

/-- `BaseProtocol._find_tag_info`: first EPC in the (sub-)inventory that ends
with the given suffix (case-sensitive `str.endswith`). -/
def findTagInfo (inv : Inventory) (suffix : String) : TagInfo :=
  match inv.find? (fun p => endsWith p.1 suffix) with
  | some p => ⟨true, some p.2.rssi, p.2.count, some p.2.phase⟩
  | none => ⟨false, none, 0, none⟩

/-- The matched-target suffix set of one antenna's sub-inventory
(the `ant1_targets` / `ant2_targets` sets of `_collect_step`): the last four
characters of each EPC, kept when they equal a registered suffix exactly. -/
def targetsFinset (suffixes : List String) (inv : Inventory) : Finset String :=
  (inv.filterMap
    (fun p => if last4 p.1 ∈ suffixes then some (last4 p.1) else none)).toFinset

/-- The fields of `StepResult` (src/protocols/base.py) used by the engine. -/
structure StepResult where
  beam_state : String
  angle_deg : ℚ
  v_ch1 : Option ℚ
  v_ch2 : Option ℚ
  ant1_unique_epc_n : ℕ
  ant1_targets_seen_n : ℕ
  ant1_missed_suffixes : List String
  ant2_unique_epc_n : ℕ
  ant2_targets_seen_n : ℕ
  ant2_missed_suffixes : List String
deriving DecidableEq, Inhabited

/-- The fields of `TagStepResult` (src/protocols/base.py) used by the engine. -/
structure TagStepResult where
  beam_state : String
  tag_suffix : String
  ant1_seen : Bool
  ant1_rssi : Option ℚ
  ant2_seen : Bool
  ant2_rssi : Option ℚ
deriving DecidableEq

/-- The `raw` dictionary returned by `_collect_step`. -/
structure RawSets where
  ant1_epcs : Finset String
  ant2_epcs : Finset String
  ant1_targets : Finset String
  ant2_targets : Finset String
deriving DecidableEq

/-- The full output of one `_collect_step` call, together with the
`set_voltage` calls it performed on the MCU. -/
structure StepOut where
  sr : StepResult
  tagSteps : List TagStepResult
  raw : RawSets
  mcuCalls : List (ℚ × ℚ)
deriving DecidableEq

/-- `AFSUAMProtocol._collect_step` (data reduction; the settle/dwell sleeps
and the reader snapshot are replaced by the supplied inventory). -/
def collectStep (lut : CorrectedBeamLUT) (tags : List Tag) (beam_state : String)
    (angle : ℚ) (port_config : ℤ) (inv : Inventory) : StepOut :=
  let vs : Option (ℚ × ℚ) :=
    if beam_state ≠ "FIXED" then some (get_voltages lut port_config angle)
    else none
  let inv1 := (splitInventory inv).1
  let inv2 := (splitInventory inv).2
  let suffixes := tags.map Tag.suffix
  let ant1_targets := targetsFinset suffixes inv1
  let ant2_targets := targetsFinset suffixes inv2
  let ant1_missed := get_missed_tags tags ant1_targets
  let ant2_missed := get_missed_tags tags ant2_targets
  { sr :=
      { beam_state := beam_state
        angle_deg := angle
        v_ch1 := vs.map Prod.fst
        v_ch2 := vs.map Prod.snd
        ant1_unique_epc_n := inv1.length
        ant1_targets_seen_n := ant1_targets.card
        ant1_missed_suffixes := ant1_missed.map Tag.suffix
        ant2_unique_epc_n := inv2.length
        ant2_targets_seen_n := ant2_targets.card
        ant2_missed_suffixes := ant2_missed.map Tag.suffix }
    tagSteps := tags.map (fun t =>
      let t1 := findTagInfo inv1 t.suffix
      let t2 := findTagInfo inv2 t.suffix
      { beam_state := beam_state
        tag_suffix := t.suffix
        ant1_seen := t1.seen
        ant1_rssi := t1.rssi
        ant2_seen := t2.seen
        ant2_rssi := t2.rssi })
    raw :=
      { ant1_epcs := (inv1.map Prod.fst).toFinset
        ant2_epcs := (inv2.map Prod.fst).toFinset
        ant1_targets := ant1_targets
        ant2_targets := ant2_targets }
    mcuCalls := match vs with | some v => [v] | none => [] }

/-- Set a key in an insertion-ordered dictionary (Python dict assignment:
update in place if present, else append). -/
def aset {β : Type} (d : List (String × β)) (k : String) (v : β) :
    List (String × β) :=
  if d.any (fun p => p.1 == k) then d.map (fun p => if p.1 == k then (k, v) else p)
  else d ++ [(k, v)]

/-- Look a key up in an insertion-ordered dictionary. -/
def aget {β : Type} (d : List (String × β)) (k : String) : Option β :=
  (d.find? (fun p => p.1 == k)).map Prod.snd

/-- `{name: None for name in beam_names}`. -/
def dictInit (names : List String) : List (String × Option ℚ) :=
  names.foldl (fun d n => aset d n none) []

/-- The initial `tag_best_beam` accumulator:
`{s: {"ant1": {...None...}, "ant2": {...None...}} for s in suffixes}`. -/
def tbbInit (suffixes : List String) (beam_names : List String) :
    List (String × (List (String × Option ℚ) × List (String × Option ℚ))) :=
  suffixes.foldl (fun d s => aset d s (dictInit beam_names, dictInit beam_names)) []

/-- One `tag_best_beam` update from a per-tag step result:
`tag_best_beam[suffix][ant][beam_state] = rssi` whenever the tag was seen
with a non-null RSSI on that antenna. -/
def tbbUpdate
    (d : List (String × (List (String × Option ℚ) × List (String × Option ℚ))))
    (ts : TagStepResult) :
    List (String × (List (String × Option ℚ) × List (String × Option ℚ))) :=
  match aget d ts.tag_suffix with
  | none => d
  | some pair =>
      let p1 := if ts.ant1_seen = true ∧ ts.ant1_rssi.isSome
                then aset pair.1 ts.beam_state ts.ant1_rssi else pair.1
      let p2 := if ts.ant2_seen = true ∧ ts.ant2_rssi.isSome
                then aset pair.2 ts.beam_state ts.ant2_rssi else pair.2
      aset d ts.tag_suffix (p1, p2)

/-- Stable insertion into a list sorted descending by RSSI. -/
def insertDesc (x : String × ℚ) : List (String × ℚ) → List (String × ℚ)
  | [] => [x]
  | y :: ys => if x.2 < y.2 then y :: insertDesc x ys else x :: y :: ys

/-- Stable descending sort by RSSI
(`rssi_list.sort(key=lambda x: x[1], reverse=True)`). -/
def sortDesc : List (String × ℚ) → List (String × ℚ)
  | [] => []
  | x :: xs => insertDesc x (sortDesc xs)

/-- The six components returned by `compute_best`. -/
structure BestResult where
  beam : String
  rssi : Option ℚ
  seen_n : ℕ
  margin : Option ℚ
  tie_flag : ℕ
  confidence : String
deriving DecidableEq

/-- `compute_best` (src/protocols/afsuam.py, inside `run`): best beam, RSSI,
seen count, margin, tie flag and confidence from one tag/antenna beam→RSSI
dictionary. -/
def compute_best (beam_data : List (String × Option ℚ)) (is_disabled : Bool) :
    BestResult :=
  if is_disabled then ⟨"DISABLED", none, 0, none, 0, "DISABLED"⟩ else
  let rssi_list := beam_data.filterMap (fun p => p.2.map (fun r => (p.1, r)))
  let seen_n := rssi_list.length
  if seen_n = 0 then ⟨"MISS", none, 0, none, 0, "NONE"⟩ else
  let sorted := sortDesc rssi_list
  let best := sorted.headI
  if 2 ≤ seen_n then
    let second_rssi := ((sorted.get? 1).getD ("", 0)).2
    let margin := best.2 - second_rssi
    let tie_flag : ℕ := if margin = 0 then 1 else 0
    let confidence : String :=
      if 3 ≤ margin then "HIGH" else if 1 ≤ margin then "MED" else "LOW"
    ⟨best.1, some best.2, seen_n, some margin, tie_flag, confidence⟩
  else ⟨best.1, some best.2, seen_n, none, 0, "SINGLE"⟩

/-- The twelve per-tag best-beam dictionaries of a `UnionResult`. -/
structure UnionBest where
  ant1_best_beam : List (String × String)
  ant1_best_rssi : List (String × ℚ)
  ant1_seen_beams_n : List (String × ℕ)
  ant1_best_margin : List (String × ℚ)
  ant1_tie_flag : List (String × ℕ)
  ant1_best_confidence : List (String × String)
  ant2_best_beam : List (String × String)
  ant2_best_rssi : List (String × ℚ)
  ant2_seen_beams_n : List (String × ℕ)
  ant2_best_margin : List (String × ℚ)
  ant2_tie_flag : List (String × ℕ)
  ant2_best_confidence : List (String × String)
deriving DecidableEq, Inhabited

/-- One iteration of the per-tag best-beam loop of `AFSUAMProtocol.run`:
run `compute_best` for both antennas of one `tag_best_beam` entry and fill
the twelve dictionaries (RSSI and margin entries only when not null). -/
def bestFoldStep (ant1_disabled ant2_disabled : Bool) (acc : UnionBest)
    (it : String × (List (String × Option ℚ) × List (String × Option ℚ))) :
    UnionBest :=
      let b1 := compute_best it.2.1 ant1_disabled
      let b2 := compute_best it.2.2 ant2_disabled
      { ant1_best_beam := aset acc.ant1_best_beam it.1 b1.beam
        ant1_best_rssi :=
          match b1.rssi with
          | some r => aset acc.ant1_best_rssi it.1 r
          | none => acc.ant1_best_rssi
        ant1_seen_beams_n := aset acc.ant1_seen_beams_n it.1 b1.seen_n
        ant1_best_margin :=
          match b1.margin with
          | some m => aset acc.ant1_best_margin it.1 m
          | none => acc.ant1_best_margin
        ant1_tie_flag := aset acc.ant1_tie_flag it.1 b1.tie_flag
        ant1_best_confidence := aset acc.ant1_best_confidence it.1 b1.confidence
        ant2_best_beam := aset acc.ant2_best_beam it.1 b2.beam
        ant2_best_rssi :=
          match b2.rssi with
          | some r => aset acc.ant2_best_rssi it.1 r
          | none => acc.ant2_best_rssi
        ant2_seen_beams_n := aset acc.ant2_seen_beams_n it.1 b2.seen_n
        ant2_best_margin :=
          match b2.margin with
          | some m => aset acc.ant2_best_margin it.1 m
          | none => acc.ant2_best_margin
        ant2_tie_flag := aset acc.ant2_tie_flag it.1 b2.tie_flag
        ant2_best_confidence := aset acc.ant2_best_confidence it.1 b2.confidence }

/-- The per-tag best-beam loop of `AFSUAMProtocol.run`
(`for suffix, data in tag_best_beam.items(): compute_best(...)`). -/
def bestFold
    (items : List (String × (List (String × Option ℚ) × List (String × Option ℚ))))
    (ant1_disabled ant2_disabled : Bool) : UnionBest :=
  items.foldl (bestFoldStep ant1_disabled ant2_disabled)
    ⟨[], [], [], [], [], [], [], [], [], [], [], []⟩

/-- `UnionResult` (src/protocols/base.py), the fields filled by the repeat
aggregation of `AFSUAMProtocol.run`. -/
structure UnionResult where
  repeatIdx : ℕ
  tags_total : ℕ
  ant1_unique_epcs : ℕ
  ant2_unique_epcs : ℕ
  ant1_targets_seen : ℕ
  ant2_targets_seen : ℕ
  ant1_missed_suffixes : List String
  ant1_missed_labels : List String
  ant2_missed_suffixes : List String
  ant2_missed_labels : List String
  best : UnionBest
deriving DecidableEq, Inhabited

/-- The per-repeat aggregation of `AFSUAMProtocol.run` (lines 157–337):
union coverage, missed-tag lists and the per-tag best-beam verdicts, built
from the step outputs actually collected in the repeat. -/
def aggregateOuts (tags : List Tag) (active_antennas : List ℤ)
    (beam_names : List String) (outs : List StepOut) (repeatNo : ℕ) :
    UnionResult :=
  let u1e := outs.foldl (fun a o => a ∪ o.raw.ant1_epcs) ∅
  let u2e := outs.foldl (fun a o => a ∪ o.raw.ant2_epcs) ∅
  let u1t := outs.foldl (fun a o => a ∪ o.raw.ant1_targets) ∅
  let u2t := outs.foldl (fun a o => a ∪ o.raw.ant2_targets) ∅
  let tbb0 := tbbInit (tags.map Tag.suffix) beam_names
  let tbb := outs.foldl (fun d o => o.tagSteps.foldl (fun d ts => tbbUpdate d ts) d) tbb0
  let ant1_missed := if (1 : ℤ) ∈ active_antennas then get_missed_tags tags u1t else []
  let ant2_missed := if (2 : ℤ) ∈ active_antennas then get_missed_tags tags u2t else []
  let best := bestFold tbb (decide ((1 : ℤ) ∉ active_antennas))
    (decide ((2 : ℤ) ∉ active_antennas))
  { repeatIdx := repeatNo
    tags_total := tags.length
    ant1_unique_epcs := u1e.card
    ant2_unique_epcs := u2e.card
    ant1_targets_seen := u1t.card
    ant2_targets_seen := u2t.card
    ant1_missed_suffixes := ant1_missed.map Tag.suffix
    ant1_missed_labels := ant1_missed.map Tag.label
    ant2_missed_suffixes := ant2_missed.map Tag.suffix
    ant2_missed_labels := ant2_missed.map Tag.label
    best := best }

/-- The inner beam-state loop of `AFSUAMProtocol.run`: the stop flag is read
once before each step (check number `ci` reads `stop ci`); a set flag breaks
out before collecting the step. Returns the collected step outputs and the
next check number. -/
def innerSteps (stop : ℕ → Bool) (lut : CorrectedBeamLUT) (tags : List Tag)
    (port_config : ℤ) (env_r : ℕ → Inventory) :
    List (String × ℚ) → ℕ → ℕ → List StepOut × ℕ
  | [], _, ci => ([], ci)
  | (beam, angle) :: rest, i, ci =>
      if stop ci then ([], ci + 1)
      else
        let o := collectStep lut tags beam angle port_config (env_r i)
        let res := innerSteps stop lut tags port_config env_r rest (i + 1) (ci + 1)
        (o :: res.1, res.2)

/-- Everything one repeat contributes to the protocol result. -/
structure Block where
  steps : List StepResult
  tagSteps : List TagStepResult
  mcuCalls : List (ℚ × ℚ)
  union : UnionResult
deriving DecidableEq, Inhabited

/-- One iteration of the outer repeat loop: run the inner loop (with the
cooperative stop), then aggregate the collected steps into the repeat's
`UnionResult`. -/
def repeatBlock (stop : ℕ → Bool) (lut : CorrectedBeamLUT) (tags : List Tag)
    (port_config : ℤ) (active_antennas : List ℤ) (steps : List (String × ℚ))
    (env_r : ℕ → Inventory) (repeatNo : ℕ) (ci : ℕ) : Block × ℕ :=
  let r := innerSteps stop lut tags port_config env_r steps 0 ci
  let outs := r.1
  let beam_names := steps.map Prod.fst
  ({ steps := outs.map StepOut.sr
     tagSteps := (outs.map StepOut.tagSteps).flatten
     mcuCalls := (outs.map StepOut.mcuCalls).flatten
     union := aggregateOuts tags active_antennas beam_names outs repeatNo }, r.2)

/-- The protocol-run configuration passed to `AFSUAMProtocol.run`. -/
structure RunConfig where
  repeats : ℕ
  port_config : ℤ
  active_antennas : List ℤ
  beam_steps : ℤ
  reader_connected : Bool
  mcu_connected : Bool
deriving DecidableEq

/-- The outer repeat loop of `AFSUAMProtocol.run`: the stop flag is also read
once before each repeat; a set flag ends the run. -/
def outerBlocks (stop : ℕ → Bool) (lut : CorrectedBeamLUT) (tags : List Tag)
    (cfg : RunConfig) (steps : List (String × ℚ)) (env : ℕ → ℕ → Inventory) :
    ℕ → ℕ → ℕ → List Block
  | 0, _, _ => []
  | n + 1, r, ci =>
      if stop ci then []
      else
        let bl := repeatBlock stop lut tags cfg.port_config cfg.active_antennas
          steps (env r) (r + 1) (ci + 1)
        bl.1 :: outerBlocks stop lut tags cfg steps env n (r + 1) bl.2

/-- `np.linspace(30.0, -30.0, beam_steps)` followed by `round(angle, 1)` on
each value; `[0.0]` when `beam_steps < 2` (the dynamic branch of the beam
sequence generation in `AFSUAMProtocol.run`). -/
def beamAngles (beam_steps : ℤ) : List ℚ :=
  if beam_steps < 2 then [0]
  else (List.range beam_steps.toNat).map
    (fun k : ℕ => pyRound1 (30 - 60 * (k : ℚ) / ((beam_steps : ℚ) - 1)))

/-- Python's text for a one-decimal float: the integer digits when the value
is integral, else `intpart.digit`. -/
def decRepr (q : ℚ) : String :=
  if q.den = 1 then toString q.num
  else
    (if q < 0 then "-" else "") ++ toString ⌊|q|⌋ ++ "." ++
      toString ⌊(|q| - (⌊|q|⌋ : ℚ)) * 10⌋

/-- `f"BEAM_{int(angle) if angle.is_integer() else angle}"`. -/
def beamName (angle : ℚ) : String := "BEAM_" ++ decRepr angle

/-- The beam-state sequence of `AFSUAMProtocol.run` (lines 75–103): a single
`FIXED` no-op state when antenna 1 is inactive, the three LUT presets when
`beam_steps == 3`, otherwise the rounded linspace angles. -/
def beamStepsFor (lut : CorrectedBeamLUT) (cfg : RunConfig) :
    List (String × ℚ) :=
  if (1 : ℤ) ∉ cfg.active_antennas then [("FIXED", 0)]
  else if cfg.beam_steps = 3 then
    let p := get_beam_presets lut cfg.port_config
    [("LEFT", p.1), ("CENTER", p.2.1), ("RIGHT", p.2.2)]
  else (beamAngles cfg.beam_steps).map (fun a => (beamName a, a))

/-- The fields of `ProtocolResult` (src/protocols/base.py) driven by
`AFSUAMProtocol.run`, plus the trace of MCU voltage writes. -/
structure ProtocolResult where
  success : Bool
  error_message : String
  beam_sequence : List String
  ant1_health : String
  ant2_health : String
  step_results : List StepResult
  tag_step_results : List TagStepResult
  union_results : List UnionResult
  mcu_calls : List (ℚ × ℚ)
deriving DecidableEq

/-- `AFSUAMProtocol.run`: precondition checks, the repeat × beam-state loop
with cooperative stop, and the final health / success assignment. `stop` is
the stream of values the stop flag shows at successive checks; `env r i` is
the telemetry snapshot of step `i` of repeat `r`. -/
def runProtocol (lut : CorrectedBeamLUT) (tags : List Tag) (cfg : RunConfig)
    (stop : ℕ → Bool) (env : ℕ → ℕ → Inventory) : ProtocolResult :=
  let steps := beamStepsFor lut cfg
  let ant1_enabled := (1 : ℤ) ∈ cfg.active_antennas
  let ant2_enabled := (2 : ℤ) ∈ cfg.active_antennas
  let base : ProtocolResult :=
    { success := true
      error_message := ""
      beam_sequence := steps.map Prod.fst
      ant1_health := if ant1_enabled then "OK" else "DISABLED"
      ant2_health := if ant2_enabled then "OK" else "DISABLED"
      step_results := []
      tag_step_results := []
      union_results := []
      mcu_calls := [] }
  if cfg.reader_connected = false then
    { base with success := false, error_message := "Reader is not connected" }
  else if ant1_enabled ∧ cfg.mcu_connected = false then
    { base with success := false, error_message := "MCU is not connected" }
  else
    let blocks := outerBlocks stop lut tags cfg steps env cfg.repeats 0 0
    let srs := (blocks.map Block.steps).flatten
    let any1 := srs.any (fun s => decide (0 < s.ant1_unique_epc_n))
    let any2 := srs.any (fun s => decide (0 < s.ant2_unique_epc_n))
    { base with
      step_results := srs
      tag_step_results := (blocks.map Block.tagSteps).flatten
      union_results := blocks.map Block.union
      mcu_calls := (blocks.map Block.mcuCalls).flatten
      ant1_health := if ant1_enabled ∧ any1 = false then "NO_TAG_REPORTS"
        else base.ant1_health
      ant2_health := if ant2_enabled ∧ any2 = false then "NO_TAG_REPORTS"
        else base.ant2_health }

lemma clampV_nonneg (v : ℚ) : 0 ≤ clampV v := le_max_left 0 _

lemma clampV_le (v : ℚ) : clampV v ≤ 17/2 := by
  unfold clampV
  exact max_le (by norm_num) (min_le_left _ _)

lemma get_voltages_cases (lut : CorrectedBeamLUT) (pc : ℤ) (a : ℚ) :
    get_voltages lut pc a = (0, 0) ∨
      ∃ x y, get_voltages lut pc a = (clampV x, clampV y) := by
  simp only [get_voltages]
  split
  · exact Or.inl rfl
  · split <;> split <;> split
    all_goals first
      | exact Or.inl rfl
      | exact Or.inr ⟨_, _, rfl⟩

/-- **C2.** For every angle input (including angles far outside the
calibrated table) and every port configuration, `get_voltages` returns a
pair of voltages each within `[0, 8.5]`; and if the requested port
configuration (0 or 1) has no loaded data it returns exactly `(0, 0)`. -/
theorem c2_voltage_safety (lut : CorrectedBeamLUT) (port_config : ℤ) (angle : ℚ) :
    (0 ≤ (get_voltages lut port_config angle).1 ∧
      (get_voltages lut port_config angle).1 ≤ 17/2 ∧
      0 ≤ (get_voltages lut port_config angle).2 ∧
      (get_voltages lut port_config angle).2 ≤ 17/2) ∧
    (port_config = 0 → lut.config0 = [] →
      get_voltages lut port_config angle = (0, 0)) ∧
    (port_config = 1 → lut.config1 = [] →
      get_voltages lut port_config angle = (0, 0)) := by
  refine ⟨?_, ?_, ?_⟩
  · rcases get_voltages_cases lut port_config angle with h | ⟨x, y, h⟩ <;> rw [h]
    · norm_num
    · exact ⟨clampV_nonneg _, clampV_le _, clampV_nonneg _, clampV_le _⟩
  · intro h0 hnil
    subst h0
    unfold get_voltages
    simp [hnil]
  · intro h1 hnil
    subst h1
    unfold get_voltages
    simp [hnil]

theorem c2_voltage_safety_witness :
    (0 ≤ (get_voltages ⟨true, [(0, 1, 2), (10, 9, -3)], []⟩ 0 1000).1 ∧
      (get_voltages ⟨true, [(0, 1, 2), (10, 9, -3)], []⟩ 0 1000).1 ≤ 17/2 ∧
      0 ≤ (get_voltages ⟨true, [(0, 1, 2), (10, 9, -3)], []⟩ 0 1000).2 ∧
      (get_voltages ⟨true, [(0, 1, 2), (10, 9, -3)], []⟩ 0 1000).2 ≤ 17/2) ∧
    get_voltages ⟨true, [(0, 1, 2), (10, 9, -3)], []⟩ 1 5 = (0, 0) :=
  ⟨(c2_voltage_safety ⟨true, [(0, 1, 2), (10, 9, -3)], []⟩ 0 1000).1,
   (c2_voltage_safety ⟨true, [(0, 1, 2), (10, 9, -3)], []⟩ 1 5).2.2 rfl rfl⟩

/-- **C3, counterexample.** The EPC `"xxabcd"` ends (case-insensitively) with
the registered suffix `"ABCD"` — `Tag.matches_epc` accepts it — yet the
step-collection routine counts no match: its target set is empty and the
per-tag lookup reports the tag as not seen, because `_collect_step` compares
the raw last four characters against the suffix list and `_find_tag_info`
uses a case-sensitive `endswith`. -/
theorem c3_matching_counterexample :
    Tag.matches_epc ⟨"ABCD", "T1", ""⟩ "xxabcd" = true ∧
    targetsFinset ["ABCD"] [("xxabcd", ⟨-50, 1, 0, 1⟩)] = ∅ ∧
    (findTagInfo [("xxabcd", ⟨-50, 1, 0, 1⟩)] "ABCD").seen = false := by
  decide

/-- **C3, amended.** The step-collection routine uses two case-sensitive
matching rules, not the case-insensitive ends-with rule: an EPC contributes
to an antenna's target set exactly when its last four characters equal a
registered suffix verbatim, and the per-tag step lookup reports a tag as
seen exactly when some EPC ends with the tag's suffix verbatim. -/
theorem c3_matching_rule (tags : List Tag) (inv : Inventory) :
    (∀ s : String, s ∈ targetsFinset (tags.map Tag.suffix) inv ↔
      (s ∈ tags.map Tag.suffix ∧ ∃ p ∈ inv, last4 p.1 = s)) ∧
    (∀ suffix : String, (findTagInfo inv suffix).seen = true ↔
      ∃ p ∈ inv, endsWith p.1 suffix = true) := by
  constructor
  · intro s
    simp only [targetsFinset, List.mem_toFinset, List.mem_filterMap]
    constructor
    · rintro ⟨p, hp, hsome⟩
      by_cases h : last4 p.1 ∈ tags.map Tag.suffix
      · rw [if_pos h] at hsome
        obtain rfl : last4 p.1 = s := Option.some.inj hsome
        exact ⟨h, p, hp, rfl⟩
      · rw [if_neg h] at hsome
        exact absurd hsome (Option.noConfusion)
    · rintro ⟨hs, p, hp, hlast⟩
      exact ⟨p, hp, by rw [hlast, if_pos hs]⟩
  · intro suffix
    unfold findTagInfo
    cases h : inv.find? (fun p => endsWith p.1 suffix) with
    | none =>
        simp only [h]
        constructor
        · intro hfalse
          exact absurd hfalse (by simp)
        · rintro ⟨p, hp, hend⟩
          have := List.find?_eq_none.mp h p hp
          simp [hend] at this
    | some p =>
        simp only [h]
        constructor
        · intro _
          refine ⟨p, List.mem_of_find?_eq_some h, ?_⟩
          have hp := List.find?_some h
          simpa using hp
        · intro _
          trivial

theorem c3_matching_rule_witness :
    "BCDE" ∈ targetsFinset ["BCDE"] [("ABCDE", ⟨-60, 2, 0, 1⟩)] ∧
    (findTagInfo [("ABCDE", ⟨-60, 2, 0, 1⟩)] "CDE").seen = true :=
  ⟨((c3_matching_rule [⟨"BCDE", "T", ""⟩] [("ABCDE", ⟨-60, 2, 0, 1⟩)]).1
      "BCDE").mpr ⟨by decide, ("ABCDE", ⟨-60, 2, 0, 1⟩), by decide, by decide⟩,
   ((c3_matching_rule [⟨"BCDE", "T", ""⟩] [("ABCDE", ⟨-60, 2, 0, 1⟩)]).2
      "CDE").mpr ⟨("ABCDE", ⟨-60, 2, 0, 1⟩), by decide, by decide⟩⟩

lemma insertDesc_perm (x : String × ℚ) :
    ∀ l : List (String × ℚ), (insertDesc x l).Perm (x :: l)
  | [] => List.Perm.refl _
  | y :: ys => by
      unfold insertDesc
      split
      · exact ((insertDesc_perm x ys).cons y).trans (List.Perm.swap x y ys)
      · exact List.Perm.refl _

lemma sortDesc_perm : ∀ l : List (String × ℚ), (sortDesc l).Perm l
  | [] => List.Perm.refl _
  | x :: xs => (insertDesc_perm x (sortDesc xs)).trans ((sortDesc_perm xs).cons x)

lemma insertDesc_pairwise (x : String × ℚ) :
    ∀ l : List (String × ℚ), l.Pairwise (fun a b => b.2 ≤ a.2) →
      (insertDesc x l).Pairwise (fun a b => b.2 ≤ a.2)
  | [], _ => by simp [insertDesc]
  | y :: ys, h => by
      rw [List.pairwise_cons] at h
      unfold insertDesc
      split
      · rename_i hlt
        rw [List.pairwise_cons]
        refine ⟨?_, insertDesc_pairwise x ys h.2⟩
        intro z hz
        have hz' : z ∈ x :: ys := (insertDesc_perm x ys).mem_iff.mp hz
        rcases List.mem_cons.mp hz' with rfl | hzys
        · exact le_of_lt hlt
        · exact h.1 z hzys
      · rename_i hge
        rw [List.pairwise_cons]
        refine ⟨?_, List.pairwise_cons.mpr h⟩
        intro z hz
        rcases List.mem_cons.mp hz with rfl | hzys
        · exact le_of_not_lt hge
        · exact le_trans (h.1 z hzys) (le_of_not_lt hge)

lemma sortDesc_pairwise :
    ∀ l : List (String × ℚ), (sortDesc l).Pairwise (fun a b => b.2 ≤ a.2)
  | [] => List.Pairwise.nil
  | x :: xs => insertDesc_pairwise x (sortDesc xs) (sortDesc_pairwise xs)

lemma compute_best_two (beamData : List (String × Option ℚ))
    (p1 p2 : String × ℚ) (rest : List (String × ℚ))
    (hdec : sortDesc (beamData.filterMap (fun p => p.2.map (fun r => (p.1, r)))) =
      p1 :: p2 :: rest)
    (hlen : 2 ≤ (beamData.filterMap (fun p => p.2.map (fun r => (p.1, r)))).length) :
    compute_best beamData false =
      ⟨p1.1, some p1.2,
       (beamData.filterMap (fun p => p.2.map (fun r => (p.1, r)))).length,
       some (p1.2 - p2.2), if p1.2 - p2.2 = 0 then 1 else 0,
       if 3 ≤ p1.2 - p2.2 then "HIGH"
       else if 1 ≤ p1.2 - p2.2 then "MED" else "LOW"⟩ := by
  have h0 : ¬ (beamData.filterMap (fun p => p.2.map (fun r => (p.1, r)))).length = 0 := by
    omega
  simp [compute_best, h0, hlen, hdec]

/-- **C1.** The per-tag, per-antenna best-beam computation for an active
antenna: with no observation it returns the MISS verdict; with a single
observation the single-observation verdict carrying that observation; with
two or more the observations are sorted descending by RSSI, the best is the
top (maximal) entry, the margin is best minus second-best, the tie flag is 1
exactly when the margin is zero, and the confidence buckets are
HIGH (≥ 3), MED (≥ 1), LOW. -/
theorem c1_compute_best_verdict (beamData : List (String × Option ℚ)) :
    (beamData.filterMap (fun p => p.2.map (fun r => (p.1, r))) = [] →
      compute_best beamData false = ⟨"MISS", none, 0, none, 0, "NONE"⟩) ∧
    (∀ b r, beamData.filterMap (fun p => p.2.map (fun r => (p.1, r))) = [(b, r)] →
      compute_best beamData false = ⟨b, some r, 1, none, 0, "SINGLE"⟩) ∧
    (∀ obs, obs = beamData.filterMap (fun p => p.2.map (fun r => (p.1, r))) →
      2 ≤ obs.length →
      (sortDesc obs).Perm obs ∧
      (sortDesc obs).Pairwise (fun a b => b.2 ≤ a.2) ∧
      ∃ b1 r1 b2 r2 rest, sortDesc obs = (b1, r1) :: (b2, r2) :: rest ∧
        (∀ p ∈ obs, p.2 ≤ r1) ∧
        compute_best beamData false =
          ⟨b1, some r1, obs.length, some (r1 - r2),
           if r1 - r2 = 0 then 1 else 0,
           if 3 ≤ r1 - r2 then "HIGH"
           else if 1 ≤ r1 - r2 then "MED" else "LOW"⟩) := by
  refine ⟨?_, ?_, ?_⟩
  · intro h
    simp [compute_best, h]
  · intro b r h
    simp [compute_best, h, sortDesc, insertDesc]
  · intro obs hobs h2
    have hperm := sortDesc_perm obs
    have hsorted := sortDesc_pairwise obs
    refine ⟨hperm, hsorted, ?_⟩
    have hlen : (sortDesc obs).length = obs.length := hperm.length_eq
    obtain ⟨q1, q2, rest, hdec⟩ :
        ∃ q1 q2 rest, sortDesc obs = q1 :: q2 :: rest := by
      match hs : sortDesc obs with
      | [] => rw [hs] at hlen; simp at hlen; omega
      | [x] => rw [hs] at hlen; simp at hlen; omega
      | x :: y :: r => exact ⟨x, y, r, rfl⟩
    refine ⟨q1.1, q1.2, q2.1, q2.2, rest, by rw [hdec], ?_, ?_⟩
    · intro p hp
      have hmem : p ∈ sortDesc obs := hperm.mem_iff.mpr hp
      rw [hdec] at hmem hsorted
      rcases List.mem_cons.mp hmem with rfl | htail
      · exact le_refl _
      · exact (List.pairwise_cons.mp hsorted).1 p htail
    · rw [hobs] at hdec h2
      rw [hobs]
      exact compute_best_two beamData q1 q2 rest hdec h2

theorem c1_compute_best_verdict_witness :
    2 ≤ ([("LEFT", some (-60 : ℚ)), ("CENTER", some (-55 : ℚ)),
        ("RIGHT", some (-70 : ℚ))].filterMap
          (fun p => p.2.map (fun r => (p.1, r)))).length ∧
    ((sortDesc ([("LEFT", some (-60 : ℚ)), ("CENTER", some (-55 : ℚ)),
        ("RIGHT", some (-70 : ℚ))].filterMap
          (fun p => p.2.map (fun r => (p.1, r))))).Perm
        ([("LEFT", some (-60 : ℚ)), ("CENTER", some (-55 : ℚ)),
        ("RIGHT", some (-70 : ℚ))].filterMap
          (fun p => p.2.map (fun r => (p.1, r)))) ∧
      (sortDesc ([("LEFT", some (-60 : ℚ)), ("CENTER", some (-55 : ℚ)),
        ("RIGHT", some (-70 : ℚ))].filterMap
          (fun p => p.2.map (fun r => (p.1, r))))).Pairwise
        (fun a b => b.2 ≤ a.2) ∧
      ∃ b1 r1 b2 r2 rest,
        sortDesc ([("LEFT", some (-60 : ℚ)), ("CENTER", some (-55 : ℚ)),
          ("RIGHT", some (-70 : ℚ))].filterMap
            (fun p => p.2.map (fun r => (p.1, r)))) = (b1, r1) :: (b2, r2) :: rest ∧
        (∀ p ∈ [("LEFT", some (-60 : ℚ)), ("CENTER", some (-55 : ℚ)),
          ("RIGHT", some (-70 : ℚ))].filterMap
            (fun p => p.2.map (fun r => (p.1, r))), p.2 ≤ r1) ∧
        compute_best [("LEFT", some (-60 : ℚ)), ("CENTER", some (-55 : ℚ)),
          ("RIGHT", some (-70 : ℚ))] false =
          ⟨b1, some r1,
           ([("LEFT", some (-60 : ℚ)), ("CENTER", some (-55 : ℚ)),
             ("RIGHT", some (-70 : ℚ))].filterMap
               (fun p => p.2.map (fun r => (p.1, r)))).length,
           some (r1 - r2),
           if r1 - r2 = 0 then 1 else 0,
           if 3 ≤ r1 - r2 then "HIGH"
           else if 1 ≤ r1 - r2 then "MED" else "LOW"⟩) :=
  ⟨by decide,
   (c1_compute_best_verdict [("LEFT", some (-60 : ℚ)), ("CENTER", some (-55 : ℚ)),
     ("RIGHT", some (-70 : ℚ))]).2.2 _ rfl (by decide)⟩

/-- Formalization of the spec phrase "N evenly spaced angles from `a` to `b`":
nonempty, starts at `a`, ends at `b`, and all consecutive differences agree. -/
def EvenlySpacedFrom (a b : ℚ) (l : List ℚ) : Prop :=
  l ≠ [] ∧ l.headI = a ∧ l.getLast? = some b ∧
  ∀ i < l.length - 1, ∀ j < l.length - 1,
    l.getD (i + 1) 0 - l.getD i 0 = l.getD (j + 1) 0 - l.getD j 0

instance (a b : ℚ) (l : List ℚ) : Decidable (EvenlySpacedFrom a b l) := by
  unfold EvenlySpacedFrom; infer_instance

lemma foldl_max_bounds (l : List ℚ) :
    ∀ a : ℚ, a ≤ l.foldl max a ∧ ∀ x ∈ l, x ≤ l.foldl max a := by
  induction l with
  | nil => intro a; simp
  | cons x xs ih =>
      intro a
      have h := ih (max a x)
      refine ⟨le_trans (le_max_left a x) h.1, ?_⟩
      intro y hy
      rcases List.mem_cons.mp hy with rfl | hmem
      · exact le_trans (le_max_right a y) h.1
      · exact h.2 y hmem

lemma foldl_max_mem (l : List ℚ) :
    ∀ a : ℚ, l.foldl max a = a ∨ l.foldl max a ∈ l := by
  induction l with
  | nil => intro a; simp
  | cons x xs ih =>
      intro a
      rcases ih (max a x) with h | h
      · rcases max_choice a x with hc | hc
        · left; rw [List.foldl_cons, h, hc]
        · right; rw [List.foldl_cons, h, hc]; exact List.mem_cons_self x xs
      · right; exact List.mem_cons_of_mem x (by simpa [List.foldl_cons] using h)

lemma foldl_min_bounds (l : List ℚ) :
    ∀ a : ℚ, l.foldl min a ≤ a ∧ ∀ x ∈ l, l.foldl min a ≤ x := by
  induction l with
  | nil => intro a; simp
  | cons x xs ih =>
      intro a
      have h := ih (min a x)
      refine ⟨le_trans h.1 (min_le_left a x), ?_⟩
      intro y hy
      rcases List.mem_cons.mp hy with rfl | hmem
      · exact le_trans h.1 (min_le_right a y)
      · exact h.2 y hmem

lemma foldl_min_mem (l : List ℚ) :
    ∀ a : ℚ, l.foldl min a = a ∨ l.foldl min a ∈ l := by
  induction l with
  | nil => intro a; simp
  | cons x xs ih =>
      intro a
      rcases ih (min a x) with h | h
      · rcases min_choice a x with hc | hc
        · left; rw [List.foldl_cons, h, hc]
        · right; rw [List.foldl_cons, h, hc]; exact List.mem_cons_self x xs
      · right; exact List.mem_cons_of_mem x (by simpa [List.foldl_cons] using h)

lemma foldl_minAbs_bounds (l : List ℚ) :
    ∀ a : ℚ,
      |l.foldl (fun best v => if |v| < |best| then v else best) a| ≤ |a| ∧
      ∀ x ∈ l, |l.foldl (fun best v => if |v| < |best| then v else best) a| ≤ |x| := by
  induction l with
  | nil => intro a; simp
  | cons x xs ih =>
      intro a
      have h := ih (if |x| < |a| then x else a)
      have hacc : |(if |x| < |a| then x else a)| ≤ |a| ∧
          |(if |x| < |a| then x else a)| ≤ |x| := by
        split
        · exact ⟨le_of_lt (by assumption), le_refl _⟩
        · exact ⟨le_refl _, le_of_not_lt (by assumption)⟩
      refine ⟨le_trans h.1 hacc.1, ?_⟩
      intro y hy
      rcases List.mem_cons.mp hy with rfl | hmem
      · exact le_trans h.1 hacc.2
      · exact h.2 y hmem

lemma foldl_minAbs_mem (l : List ℚ) :
    ∀ a : ℚ,
      l.foldl (fun best v => if |v| < |best| then v else best) a = a ∨
      l.foldl (fun best v => if |v| < |best| then v else best) a ∈ l := by
  induction l with
  | nil => intro a; simp
  | cons x xs ih =>
      intro a
      rcases ih (if |x| < |a| then x else a) with h | h
      · rw [List.foldl_cons, h]
        split
        · right; exact List.mem_cons_self x xs
        · left; rfl
      · right; exact List.mem_cons_of_mem x (by simpa [List.foldl_cons] using h)

lemma headI_mem_of_ne_nil {l : List ℚ} (hl : l ≠ []) : l.headI ∈ l := by
  cases l with
  | nil => exact absurd rfl hl
  | cons x xs => exact List.mem_cons_self x xs

lemma maxList_spec (l : List ℚ) (hl : l ≠ []) :
    maxList l ∈ l ∧ ∀ a ∈ l, a ≤ maxList l := by
  constructor
  · rcases foldl_max_mem l l.headI with h | h
    · rw [maxList, h]; exact headI_mem_of_ne_nil hl
    · exact h
  · exact (foldl_max_bounds l l.headI).2

lemma minList_spec (l : List ℚ) (hl : l ≠ []) :
    minList l ∈ l ∧ ∀ a ∈ l, minList l ≤ a := by
  constructor
  · rcases foldl_min_mem l l.headI with h | h
    · rw [minList, h]; exact headI_mem_of_ne_nil hl
    · exact h
  · exact (foldl_min_bounds l l.headI).2

lemma minAbsList_spec (l : List ℚ) (hl : l ≠ []) :
    minAbsList l ∈ l ∧ ∀ a ∈ l, |minAbsList l| ≤ |a| := by
  constructor
  · rcases foldl_minAbs_mem l l.headI with h | h
    · rw [minAbsList, h]; exact headI_mem_of_ne_nil hl
    · exact h
  · exact (foldl_minAbs_bounds l l.headI).2

lemma getD_map_range {α : Type} [Inhabited α] (n i : ℕ) (f : ℕ → α) (d : α)
    (hi : i < n) : (((List.range n).map f).getD i d) = f i := by
  rw [List.getD_eq_getElem?_getD, List.getElem?_map, List.getElem?_range hi]
  rfl

lemma getLast?_map_range {α : Type} (n : ℕ) (f : ℕ → α) (hn : n ≠ 0) :
    ((List.range n).map f).getLast? = some (f (n - 1)) := by
  obtain ⟨m, rfl⟩ : ∃ m, n = m + 1 := ⟨n - 1, by omega⟩
  rw [List.range_succ, List.map_append]
  simp

lemma headI_map_range {α : Type} [Inhabited α] (n : ℕ) (f : ℕ → α) (hn : n ≠ 0) :
    ((List.range n).map f).headI = f 0 := by
  obtain ⟨m, rfl⟩ : ∃ m, n = m + 1 := ⟨n - 1, by omega⟩
  rw [List.range_succ_eq_map]
  simp

/-- **C9, counterexample.** With beam steering enabled and `beamSteps = 8`,
the generated sequence is `30, 21.4, 12.9, 4.3, −4.3, −12.9, −21.4, −30`
(each linspace angle rounded to one decimal), whose consecutive gaps are not
all equal (`30 → 21.4` is 8.6 but `21.4 → 12.9` is 8.5): the delivered
angles are not exactly evenly spaced. -/
theorem c9_beam_sequence_counterexample :
    (beamStepsFor ⟨true, [], []⟩
        ⟨1, 0, [1, 2], 8, true, true⟩).map Prod.snd =
      [30, 107/5, 129/10, 43/10, -43/10, -129/10, -107/5, -30] ∧
    ¬ EvenlySpacedFrom 30 (-30)
        ((beamStepsFor ⟨true, [], []⟩ ⟨1, 0, [1, 2], 8, true, true⟩).map
          Prod.snd) := by
  constructor
  · with_unfolding_all decide
  · with_unfolding_all decide

/-- **C9, amended.** With beam steering enabled: for `beamSteps = N ≥ 2`,
`N ≠ 3`, the sequence is the `N` linspace angles from +30° to −30° (evenly
spaced before rounding, first 30 and last −30) each rounded to one decimal;
for `N < 2` it is the single angle `0.0` named `BEAM_0`; for `N = 3` it is
the three canonical presets where LEFT is the maximum angle with data,
CENTER the available angle nearest zero, RIGHT the minimum. -/
theorem c9_beam_sequence (lut : CorrectedBeamLUT) (cfg : RunConfig)
    (hact : (1 : ℤ) ∈ cfg.active_antennas) :
    (2 ≤ cfg.beam_steps → cfg.beam_steps ≠ 3 →
      (beamStepsFor lut cfg).map Prod.snd =
        (List.range cfg.beam_steps.toNat).map
          (fun k : ℕ => pyRound1 (30 - 60 * (k : ℚ) / ((cfg.beam_steps : ℚ) - 1))) ∧
      (beamStepsFor lut cfg).length = cfg.beam_steps.toNat ∧
      EvenlySpacedFrom 30 (-30)
        ((List.range cfg.beam_steps.toNat).map
          (fun k : ℕ => 30 - 60 * (k : ℚ) / ((cfg.beam_steps : ℚ) - 1))) ∧
      ((beamStepsFor lut cfg).map Prod.snd).headI = 30 ∧
      ((beamStepsFor lut cfg).map Prod.snd).getLast? = some (-30)) ∧
    (cfg.beam_steps < 2 → beamStepsFor lut cfg = [("BEAM_0", 0)]) ∧
    (cfg.beam_steps = 3 →
      ∀ A, A = get_available_angles lut cfg.port_config → A ≠ [] →
        beamStepsFor lut cfg =
          [("LEFT", maxList A), ("CENTER", minAbsList A), ("RIGHT", minList A)] ∧
        maxList A ∈ A ∧ (∀ a ∈ A, a ≤ maxList A) ∧
        minList A ∈ A ∧ (∀ a ∈ A, minList A ≤ a) ∧
        minAbsList A ∈ A ∧ (∀ a ∈ A, |minAbsList A| ≤ |a|)) := by
  have hne : ¬ ((1 : ℤ) ∉ cfg.active_antennas) := by simpa using hact
  refine ⟨?_, ?_, ?_⟩
  · intro h2 h3
    have hlt : ¬ (cfg.beam_steps < 2) := by omega
    have hsteps : beamStepsFor lut cfg =
        ((List.range cfg.beam_steps.toNat).map
          (fun k : ℕ => pyRound1 (30 - 60 * (k : ℚ) / ((cfg.beam_steps : ℚ) - 1)))).map
          (fun a => (beamName a, a)) := by
      rw [beamStepsFor, if_neg hne, if_neg h3, beamAngles, if_neg hlt]
    have hn2 : 2 ≤ cfg.beam_steps.toNat := by omega
    have hn0 : cfg.beam_steps.toNat ≠ 0 := by omega
    have hcast : ((cfg.beam_steps.toNat : ℚ)) = (cfg.beam_steps : ℚ) := by
      have h := Int.toNat_of_nonneg (show (0 : ℤ) ≤ cfg.beam_steps by omega)
      exact_mod_cast congrArg (fun z : ℤ => (z : ℚ)) h
    have hq2 : (2 : ℚ) ≤ (cfg.beam_steps : ℚ) := by exact_mod_cast h2
    have hN1 : ((cfg.beam_steps : ℚ) - 1) ≠ 0 := by
      intro h; rw [sub_eq_zero] at h; rw [h] at hq2; norm_num at hq2
    have hlastarg : ((cfg.beam_steps.toNat - 1 : ℕ) : ℚ) = (cfg.beam_steps : ℚ) - 1 := by
      push_cast [Nat.cast_sub (by omega : 1 ≤ cfg.beam_steps.toNat)] at hcast ⊢
      rw [hcast]
    have hflast : 30 - 60 * ((cfg.beam_steps.toNat - 1 : ℕ) : ℚ) /
        ((cfg.beam_steps : ℚ) - 1) = -30 := by
      rw [hlastarg, mul_div_assoc, div_self hN1, mul_one]
      norm_num
    have hmapsnd : (beamStepsFor lut cfg).map Prod.snd =
        (List.range cfg.beam_steps.toNat).map
          (fun k : ℕ => pyRound1 (30 - 60 * (k : ℚ) / ((cfg.beam_steps : ℚ) - 1))) := by
      rw [hsteps, List.map_map]
      simp [Function.comp]
    refine ⟨hmapsnd, by rw [hsteps]; simp, ?_, ?_, ?_⟩
    · refine ⟨?_, ?_, ?_, ?_⟩
      · simp only [ne_eq, List.map_eq_nil_iff, List.range_eq_nil]
        omega
      · rw [headI_map_range _ _ hn0]
        norm_num
      · rw [getLast?_map_range _ _ hn0, hflast]
      · have hdiff : ∀ k : ℕ, k + 1 < cfg.beam_steps.toNat →
            (30 - 60 * ((k + 1 : ℕ) : ℚ) / ((cfg.beam_steps : ℚ) - 1)) -
            (30 - 60 * ((k : ℕ) : ℚ) / ((cfg.beam_steps : ℚ) - 1)) =
            -(60 / ((cfg.beam_steps : ℚ) - 1)) := by
          intro k hk
          push_cast
          field_simp
          ring
        intro i hi j hj
        simp only [List.length_map, List.length_range] at hi hj
        rw [getD_map_range _ _ _ _ (by omega), getD_map_range _ _ _ _ (by omega),
          getD_map_range _ _ _ _ (by omega), getD_map_range _ _ _ _ (by omega),
          hdiff i (by omega), hdiff j (by omega)]
    · rw [hmapsnd, headI_map_range _ _ hn0]
      norm_num
      with_unfolding_all decide
    · rw [hmapsnd, getLast?_map_range _ _ hn0, hflast]
      congr 1
      with_unfolding_all decide
  · intro hlt
    have h3 : ¬ (cfg.beam_steps = 3) := by omega
    rw [beamStepsFor, if_neg hne, if_neg h3, beamAngles, if_pos hlt]
    with_unfolding_all decide
  · intro h3 A hA hAne
    have hpresets : beamStepsFor lut cfg =
        [("LEFT", maxList A), ("CENTER", minAbsList A), ("RIGHT", minList A)] := by
      rw [beamStepsFor, if_neg hne, if_pos h3, get_beam_presets, ← hA,
        if_neg (by simpa [List.isEmpty_iff] using hAne)]
    exact ⟨hpresets, (maxList_spec A hAne).1, (maxList_spec A hAne).2,
      (minList_spec A hAne).1, (minList_spec A hAne).2,
      (minAbsList_spec A hAne).1, (minAbsList_spec A hAne).2⟩

theorem c9_beam_sequence_witness :
    (beamStepsFor ⟨true, [], []⟩ ⟨1, 0, [1, 2], 5, true, true⟩).length = 5 ∧
    ((beamStepsFor ⟨true, [], []⟩ ⟨1, 0, [1, 2], 5, true, true⟩).map
      Prod.snd).headI = 30 ∧
    ((beamStepsFor ⟨true, [], []⟩ ⟨1, 0, [1, 2], 5, true, true⟩).map
      Prod.snd).getLast? = some (-30) := by
  have h := (c9_beam_sequence ⟨true, [], []⟩ ⟨1, 0, [1, 2], 5, true, true⟩
    (by decide)).1 (by decide) (by decide)
  exact ⟨by simpa using h.2.1, h.2.2.2.1, h.2.2.2.2⟩

lemma interpSeg_left (p q : ℚ × ℚ) : interpSeg p q p.1 = p.2 := by
  unfold interpSeg
  rw [sub_self, zero_mul, zero_div, add_zero]

lemma interpSeg_right (p q : ℚ × ℚ) (h : q.1 - p.1 ≠ 0) :
    interpSeg p q q.1 = q.2 := by
  unfold interpSeg
  field_simp

lemma interpSeg_mono (p q : ℚ × ℚ) (h1 : p.1 < q.1) (h2 : p.2 < q.2)
    {x x' : ℚ} (hx : x ≤ x') : interpSeg p q x ≤ interpSeg p q x' := by
  have hdiff : interpSeg p q x' - interpSeg p q x =
      (x' - x) * ((q.2 - p.2) / (q.1 - p.1)) := by
    unfold interpSeg
    ring
  have hs : 0 < (q.2 - p.2) / (q.1 - p.1) :=
    div_pos (by linarith) (by linarith)
  nlinarith [mul_nonneg (by linarith : (0:ℚ) ≤ x' - x) hs.le]

lemma interpSeg_strict_mono (p q : ℚ × ℚ) (h1 : p.1 < q.1) (h2 : p.2 < q.2)
    {x x' : ℚ} (hx : x < x') : interpSeg p q x < interpSeg p q x' := by
  have hdiff : interpSeg p q x' - interpSeg p q x =
      (x' - x) * ((q.2 - p.2) / (q.1 - p.1)) := by
    unfold interpSeg
    ring
  have hs : 0 < (q.2 - p.2) / (q.1 - p.1) :=
    div_pos (by linarith) (by linarith)
  nlinarith [mul_pos (by linarith : (0:ℚ) < x' - x) hs]

lemma interpSeg_inv (p q : ℚ × ℚ) (h1 : p.1 < q.1) (h2 : p.2 < q.2) (x : ℚ) :
    interpSeg (Prod.swap p) (Prod.swap q) (interpSeg p q x) = x := by
  unfold interpSeg
  simp only [Prod.swap, Prod.fst, Prod.snd]
  have hd1 : q.1 - p.1 ≠ 0 := by linarith
  have hd2 : q.2 - p.2 ≠ 0 := by linarith
  field_simp
  ring

lemma interpPL_two (p q : ℚ × ℚ) (x : ℚ) : interpPL [p, q] x = interpSeg p q x := rfl

lemma interpPL_cons3 (p q r : ℚ × ℚ) (rest : List (ℚ × ℚ)) (x : ℚ) :
    interpPL (p :: q :: r :: rest) x =
      if x ≤ q.1 then interpSeg p q x else interpPL (q :: r :: rest) x := rfl

lemma tableMono_rel {p q : ℚ × ℚ} {rest : List (ℚ × ℚ)}
    (h : TableMono (p :: q :: rest)) :
    (p.1 < q.1 ∧ p.2 < q.2) ∧ TableMono (q :: rest) := h

lemma tableMono_head_le_last :
    ∀ (l : List (ℚ × ℚ)) (p b : ℚ × ℚ), TableMono (p :: l) →
      (p :: l).getLast? = some b → p.1 ≤ b.1 ∧ p.2 ≤ b.2
  | [], p, b, _, hlast => by
      obtain rfl : b = p := by simpa using hlast.symm
      exact ⟨le_refl _, le_refl _⟩
  | q :: rest, p, b, hmono, hlast => by
      obtain ⟨hrel, htail⟩ := tableMono_rel hmono
      rw [List.getLast?_cons_cons] at hlast
      have ih := tableMono_head_le_last rest q b htail hlast
      exact ⟨le_trans hrel.1.le ih.1, le_trans hrel.2.le ih.2⟩

lemma interpPL_gt_head (x : ℚ) :
    ∀ (l : List (ℚ × ℚ)) (p : ℚ × ℚ), TableMono (p :: l) → l ≠ [] → p.1 < x →
      p.2 < interpPL (p :: l) x
  | [], _, _, hne, _ => absurd rfl hne
  | [q], p, hmono, _, hx => by
      have hrel := (tableMono_rel hmono).1
      calc p.2 = interpSeg p q p.1 := (interpSeg_left p q).symm
        _ < interpSeg p q x := interpSeg_strict_mono p q hrel.1 hrel.2 hx
  | q :: r :: rest, p, hmono, _, hx => by
      obtain ⟨hrel, htail⟩ := tableMono_rel hmono
      rw [interpPL_cons3]
      split
      · calc p.2 = interpSeg p q p.1 := (interpSeg_left p q).symm
          _ < interpSeg p q x := interpSeg_strict_mono p q hrel.1 hrel.2 hx
      · rename_i hgt
        exact lt_trans hrel.2
          (interpPL_gt_head x (r :: rest) q htail (by simp) (not_le.mp hgt))

lemma interpPL_bounds (x : ℚ) :
    ∀ (l : List (ℚ × ℚ)) (p b : ℚ × ℚ), TableMono (p :: l) → l ≠ [] →
      (p :: l).getLast? = some b → p.1 ≤ x → x ≤ b.1 →
      p.2 ≤ interpPL (p :: l) x ∧ interpPL (p :: l) x ≤ b.2
  | [], _, _, _, hne, _, _, _ => absurd rfl hne
  | [q], p, b, hmono, _, hlast, hx1, hx2 => by
      have hrel := (tableMono_rel hmono).1
      have hbq : b = q := by simpa using hlast.symm
      rw [hbq] at hx2 ⊢
      rw [interpPL_two]
      constructor
      · calc p.2 = interpSeg p q p.1 := (interpSeg_left p q).symm
          _ ≤ interpSeg p q x := interpSeg_mono p q hrel.1 hrel.2 hx1
      · calc interpSeg p q x ≤ interpSeg p q q.1 :=
            interpSeg_mono p q hrel.1 hrel.2 hx2
          _ = q.2 := interpSeg_right p q (by linarith [hrel.1])
  | q :: r :: rest, p, b, hmono, _, hlast, hx1, hx2 => by
      obtain ⟨hrel, htail⟩ := tableMono_rel hmono
      rw [List.getLast?_cons_cons] at hlast
      have hqb := tableMono_head_le_last (r :: rest) q b htail hlast
      rw [interpPL_cons3]
      split
      · rename_i hle
        constructor
        · calc p.2 = interpSeg p q p.1 := (interpSeg_left p q).symm
            _ ≤ interpSeg p q x := interpSeg_mono p q hrel.1 hrel.2 hx1
        · calc interpSeg p q x ≤ interpSeg p q q.1 :=
              interpSeg_mono p q hrel.1 hrel.2 hle
            _ = q.2 := interpSeg_right p q (by linarith [hrel.1])
            _ ≤ b.2 := hqb.2
      · rename_i hgt
        have ih := interpPL_bounds x (r :: rest) q b htail (by simp) hlast
          (not_le.mp hgt).le hx2
        exact ⟨le_trans hrel.2.le ih.1, ih.2⟩

lemma interpPL_roundtrip (x : ℚ) :
    ∀ (l : List (ℚ × ℚ)) (p b : ℚ × ℚ), TableMono (p :: l) → l ≠ [] →
      (p :: l).getLast? = some b → p.1 ≤ x → x ≤ b.1 →
      interpPL (swapPts (p :: l)) (interpPL (p :: l) x) = x
  | [], _, _, _, hne, _, _, _ => absurd rfl hne
  | [q], p, b, hmono, _, hlast, hx1, hx2 => by
      have hrel := (tableMono_rel hmono).1
      show interpPL [Prod.swap p, Prod.swap q] (interpPL [p, q] x) = x
      rw [interpPL_two, interpPL_two]
      exact interpSeg_inv p q hrel.1 hrel.2 x
  | q :: r :: rest, p, b, hmono, _, hlast, hx1, hx2 => by
      obtain ⟨hrel, htail⟩ := tableMono_rel hmono
      rw [List.getLast?_cons_cons] at hlast
      rw [interpPL_cons3]
      split
      · rename_i hle
        have hy2 : interpSeg p q x ≤ q.2 := by
          calc interpSeg p q x ≤ interpSeg p q q.1 :=
              interpSeg_mono p q hrel.1 hrel.2 hle
            _ = q.2 := interpSeg_right p q (by linarith [hrel.1])
        have hy2' : interpSeg p q x ≤ (Prod.swap q).1 := hy2
        show interpPL (Prod.swap p :: Prod.swap q :: Prod.swap r :: swapPts rest)
          (interpSeg p q x) = x
        rw [interpPL_cons3, if_pos hy2']
        exact interpSeg_inv p q hrel.1 hrel.2 x
      · rename_i hgt
        have hq1x : q.1 < x := not_le.mp hgt
        have hy : q.2 < interpPL (q :: r :: rest) x :=
          interpPL_gt_head x (r :: rest) q htail (by simp) hq1x
        have hy' : ¬ (interpPL (q :: r :: rest) x ≤ (Prod.swap q).1) :=
          not_le.mpr hy
        show interpPL (Prod.swap p :: Prod.swap q :: Prod.swap r :: swapPts rest)
          (interpPL (q :: r :: rest) x) = x
        rw [interpPL_cons3, if_neg hy']
        exact interpPL_roundtrip x (r :: rest) q b htail (by simp) hlast hq1x.le hx2

lemma pymod_eq_self {y m : ℚ} (h0 : 0 ≤ y) (hm : y < m) (hmp : 0 < m) :
    pymod y m = y := by
  unfold pymod
  have hz : ⌊y / m⌋ = 0 := by
    rw [Int.floor_eq_zero_iff]
    exact ⟨div_nonneg h0 hmp.le, (div_lt_one hmp).mpr hm⟩
  rw [hz]
  push_cast
  ring

lemma roundtrip_core (pts : List (ℚ × ℚ)) (v : ℚ) (b : ℚ × ℚ)
    (hmono : TableMono pts) (hlen : 2 ≤ pts.length)
    (hlast : pts.getLast? = some b)
    (hv0 : 0 ≤ pts.headI.1) (hv85 : b.1 ≤ 17/2)
    (hp0 : 0 ≤ pts.headI.2) (hp360 : b.2 < 360)
    (hv1 : pts.headI.1 ≤ v) (hv2 : v ≤ b.1) :
    max 0 (min (17/2) (interpPL (swapPts pts)
      (pymod (interpPL pts (max 0 (min (17/2) v))) 360))) = v := by
  obtain ⟨p, l, rfl⟩ : ∃ p l, pts = p :: l := by
    cases pts with
    | nil => simp at hlen
    | cons p l => exact ⟨p, l, rfl⟩
  have hlne : l ≠ [] := by
    cases l with
    | nil => simp at hlen
    | cons a t => simp
  have hhead : (p :: l).headI = p := rfl
  rw [hhead] at hv0 hp0 hv1
  have hvc : max 0 (min (17/2) v) = v := by
    rw [min_eq_right (le_trans hv2 hv85), max_eq_right (le_trans hv0 hv1)]
  rw [hvc]
  have hy := interpPL_bounds v l p b hmono hlne hlast hv1 hv2
  have hmod : pymod (interpPL (p :: l) v) 360 = interpPL (p :: l) v :=
    pymod_eq_self (le_trans hp0 hy.1) (lt_of_le_of_lt hy.2 hp360) (by norm_num)
  rw [hmod, interpPL_roundtrip v l p b hmono hlne hlast hv1 hv2, hvc]

/-- **C5, amended.** For a loaded calibration table whose (voltage, phase)
points are strictly increasing in both coordinates, with voltages inside
`[0, 8.5]` and phases inside `[0, 360)` (so that the `% 360` normalization is
the identity), composing voltage→phase then phase→voltage returns the
voltage exactly, for every `v` in the calibrated voltage range. When the
phase curve exceeds 360° the normalization wraps and the round-trip fails
(see the counterexample on the source's own fallback table). -/
theorem c5_phase_roundtrip (lut : PhaseLUT) (channel : ℤ) (v : ℚ)
    (pts : List (ℚ × ℚ)) (b : ℚ × ℚ)
    (hl : lut.loaded = true)
    (hpts : pts = lut.voltage.zip (if channel = 4 then lut.phase4 else lut.phase1))
    (hmono : TableMono pts) (hlen : 2 ≤ pts.length)
    (hlast : pts.getLast? = some b)
    (hv0 : 0 ≤ pts.headI.1) (hv85 : b.1 ≤ 17/2)
    (hp0 : 0 ≤ pts.headI.2) (hp360 : b.2 < 360)
    (hv1 : pts.headI.1 ≤ v) (hv2 : v ≤ b.1) :
    lut.get_voltage (lut.get_phase v channel) channel = v := by
  by_cases hc : channel = 4
  · rw [if_pos hc] at hpts
    have h1 : lut.get_phase v channel =
        pymod (interpPL (lut.voltage.zip lut.phase4) (max 0 (min (17/2) v))) 360 := by
      simp [PhaseLUT.get_phase, hl, hc]
    have h2 : ∀ y, lut.get_voltage y channel =
        max 0 (min (17/2) (interpPL (lut.phase4.zip lut.voltage) y)) := by
      intro y
      simp [PhaseLUT.get_voltage, hl, hc]
    have hswap : lut.phase4.zip lut.voltage = swapPts pts := by
      rw [hpts]
      unfold swapPts
      exact (List.zip_swap lut.voltage lut.phase4).symm
    rw [h1, h2, hswap, ← hpts]
    exact roundtrip_core pts v b hmono hlen hlast hv0 hv85 hp0 hp360 hv1 hv2
  · rw [if_neg hc] at hpts
    have h1 : lut.get_phase v channel =
        pymod (interpPL (lut.voltage.zip lut.phase1) (max 0 (min (17/2) v))) 360 := by
      simp [PhaseLUT.get_phase, hl, hc]
    have h2 : ∀ y, lut.get_voltage y channel =
        max 0 (min (17/2) (interpPL (lut.phase1.zip lut.voltage) y)) := by
      intro y
      simp [PhaseLUT.get_voltage, hl, hc]
    have hswap : lut.phase1.zip lut.voltage = swapPts pts := by
      rw [hpts]
      unfold swapPts
      exact (List.zip_swap lut.voltage lut.phase1).symm
    rw [h1, h2, hswap, ← hpts]
    exact roundtrip_core pts v b hmono hlen hlast hv0 hv85 hp0 hp360 hv1 hv2

/-- **C5, counterexample.** On the calibration data hard-coded in the source
(fallback table: phase 363.42° at 8.5 V), the voltage 8.5 V lies inside the
calibrated range, yet `phaseToVoltage(voltageToPhase(8.5))` returns about
0.08 V: the `% 360` normalization wraps the 363.42° phase to 3.42°, so the
round-trip misses by more than 8 V — far outside any interpolation
tolerance. -/
theorem c5_roundtrip_counterexample :
    PhaseLUT.get_voltage fallbackPhaseLUT
      (PhaseLUT.get_phase fallbackPhaseLUT (17/2) 1) 1 < 1/10 ∧
    (17/2 : ℚ) - PhaseLUT.get_voltage fallbackPhaseLUT
      (PhaseLUT.get_phase fallbackPhaseLUT (17/2) 1) 1 > 8 := by
  constructor
  · with_unfolding_all decide
  · with_unfolding_all decide

theorem c5_phase_roundtrip_witness :
    PhaseLUT.get_voltage ⟨true, [0, 17/2], [0, 340], [0, 340]⟩
      (PhaseLUT.get_phase ⟨true, [0, 17/2], [0, 340], [0, 340]⟩ 3 1) 1 = 3 :=
  c5_phase_roundtrip ⟨true, [0, 17/2], [0, 340], [0, 340]⟩ 1 3
    [(0, 0), (17/2, 340)] (17/2, 340) rfl
    (by with_unfolding_all decide)
    (by with_unfolding_all decide)
    (by with_unfolding_all decide)
    (by with_unfolding_all decide)
    (by with_unfolding_all decide)
    (by with_unfolding_all decide)
    (by with_unfolding_all decide)
    (by with_unfolding_all decide)
    (by with_unfolding_all decide)
    (by with_unfolding_all decide)

lemma beamName_ne_fixed (a : ℚ) : beamName a ≠ "FIXED" := by
  intro h
  unfold beamName at h
  have hdata : ('B' :: 'E' :: 'A' :: 'M' :: '_' :: (decRepr a).data) =
      (['F', 'I', 'X', 'E', 'D'] : List Char) := congrArg String.data h
  injection hdata with h1 _
  exact absurd h1 (by decide)

lemma beamStepsFor_nonFixed_iff (lut : CorrectedBeamLUT) (cfg : RunConfig) :
    (∃ s ∈ beamStepsFor lut cfg, s.1 ≠ "FIXED") ↔
      (1 : ℤ) ∈ cfg.active_antennas := by
  constructor
  · rintro ⟨s, hs, hne⟩
    by_contra hact
    rw [beamStepsFor, if_pos hact] at hs
    obtain rfl : s = ("FIXED", (0 : ℚ)) := by simpa using hs
    exact hne rfl
  · intro hact
    have hact' : ¬ ((1 : ℤ) ∉ cfg.active_antennas) := by simpa using hact
    by_cases h3 : cfg.beam_steps = 3
    · refine ⟨("LEFT", (get_beam_presets lut cfg.port_config).1), ?_, ?_⟩
      · rw [beamStepsFor, if_neg hact', if_pos h3]
        simp
      · simp
    · rw [beamStepsFor, if_neg hact', if_neg h3]
      by_cases hlt : cfg.beam_steps < 2
      · refine ⟨("BEAM_0", 0), ?_, ?_⟩
        · rw [beamAngles, if_pos hlt]
          have : beamName 0 = "BEAM_0" := by decide
          simp [this]
        · decide
      · have hn0 : cfg.beam_steps.toNat ≠ 0 := by omega
        obtain ⟨m, hm⟩ : ∃ m, cfg.beam_steps.toNat = m + 1 :=
          ⟨cfg.beam_steps.toNat - 1, by omega⟩
        refine ⟨(beamName (pyRound1 (30 - 60 * (0 : ℕ) /
          ((cfg.beam_steps : ℚ) - 1))), pyRound1 (30 - 60 * (0 : ℕ) /
          ((cfg.beam_steps : ℚ) - 1))), ?_, beamName_ne_fixed _⟩
        rw [beamAngles, if_neg hlt, hm, List.range_succ_eq_map]
        simp

/-- **C7.** If the reader is not connected, or any beam state other than
FIXED would be used while the MCU is not connected, the run returns a
result with `success = false` and a descriptive (non-empty) error message,
having performed no MCU voltage writes and appended no step, tag-step or
union results. -/
theorem c7_precondition_failfast (lut : CorrectedBeamLUT) (tags : List Tag)
    (cfg : RunConfig) (stop : ℕ → Bool) (env : ℕ → ℕ → Inventory)
    (h : cfg.reader_connected = false ∨
      ((∃ s ∈ beamStepsFor lut cfg, s.1 ≠ "FIXED") ∧ cfg.mcu_connected = false)) :
    (runProtocol lut tags cfg stop env).success = false ∧
    (runProtocol lut tags cfg stop env).error_message ≠ "" ∧
    (runProtocol lut tags cfg stop env).step_results = [] ∧
    (runProtocol lut tags cfg stop env).tag_step_results = [] ∧
    (runProtocol lut tags cfg stop env).union_results = [] ∧
    (runProtocol lut tags cfg stop env).mcu_calls = [] := by
  by_cases hr : cfg.reader_connected = false
  · rw [runProtocol]
    rw [if_pos hr]
    refine ⟨rfl, ?_, rfl, rfl, rfl, rfl⟩
    simp
  · rcases h with h | ⟨hfix, hm⟩
    · exact absurd h hr
    · have hact : (1 : ℤ) ∈ cfg.active_antennas :=
        (beamStepsFor_nonFixed_iff lut cfg).mp hfix
      rw [runProtocol]
      rw [if_neg hr, if_pos ⟨hact, hm⟩]
      refine ⟨rfl, ?_, rfl, rfl, rfl, rfl⟩
      simp

theorem c7_precondition_failfast_witness :
    (runProtocol ⟨false, [], []⟩ [] ⟨2, 0, [1, 2], 3, false, true⟩
      (fun _ => false) (fun _ _ => [])).success = false ∧
    (runProtocol ⟨false, [], []⟩ [] ⟨2, 0, [1, 2], 3, false, true⟩
      (fun _ => false) (fun _ _ => [])).error_message ≠ "" ∧
    (runProtocol ⟨false, [], []⟩ [] ⟨2, 0, [1, 2], 3, false, true⟩
      (fun _ => false) (fun _ _ => [])).step_results = [] ∧
    (runProtocol ⟨false, [], []⟩ [] ⟨2, 0, [1, 2], 3, false, true⟩
      (fun _ => false) (fun _ _ => [])).tag_step_results = [] ∧
    (runProtocol ⟨false, [], []⟩ [] ⟨2, 0, [1, 2], 3, false, true⟩
      (fun _ => false) (fun _ _ => [])).union_results = [] ∧
    (runProtocol ⟨false, [], []⟩ [] ⟨2, 0, [1, 2], 3, false, true⟩
      (fun _ => false) (fun _ _ => [])).mcu_calls = [] :=
  c7_precondition_failfast ⟨false, [], []⟩ [] ⟨2, 0, [1, 2], 3, false, true⟩
    (fun _ => false) (fun _ _ => []) (Or.inl rfl)

lemma aget_some_mem {β : Type} (d : List (String × β)) (s : String) (w : β)
    (h : aget d s = some w) : (s, w) ∈ d := by
  unfold aget at h
  cases hf : d.find? (fun p => p.1 == s) with
  | none => rw [hf] at h; cases h
  | some p =>
      rw [hf] at h
      have hp : (p.1 == s) = true := by
        have := List.find?_some hf
        simpa using this
      have hmem := List.mem_of_find?_eq_some hf
      have h2 : p.2 = w := by simpa using h
      have h1 : p.1 = s := by simpa using hp
      have : p = (s, w) := Prod.ext h1 h2
      rw [← this]
      exact hmem

lemma mem_aset {β : Type} (d : List (String × β)) (k : String) (v : β) :
    ∀ p ∈ aset d k v, p ∈ d ∨ p = (k, v) := by
  intro p hp
  unfold aset at hp
  split at hp
  · rcases List.mem_map.mp hp with ⟨q, hq, he⟩
    by_cases hqk : (q.1 == k) = true
    · right; rw [← he, if_pos hqk]
    · left; rw [← he, if_neg hqk]; exact hq
  · rcases List.mem_append.mp hp with h | h
    · left; exact h
    · right; simpa using h

lemma find?_map_upd {β : Type} (k : String) (v : β) :
    ∀ d : List (String × β), d.any (fun p => p.1 == k) = true →
      (d.map (fun p => if p.1 == k then (k, v) else p)).find?
        (fun p => p.1 == k) = some (k, v) := by
  intro d
  induction d with
  | nil => intro h; simp at h
  | cons p rest ih =>
      intro hany
      by_cases hpk : (p.1 == k) = true
      · rw [List.map_cons, if_pos hpk]
        simp [List.find?_cons]
      · rw [Bool.not_eq_true] at hpk
        have hite : ¬ ((p.1 == k) = true) := by rw [hpk]; simp
        rw [List.map_cons, if_neg hite]
        simp only [List.find?_cons, hpk]
        apply ih
        simp only [List.any_cons, hpk] at hany
        simpa using hany

lemma find?_append_of_none {β : Type} (pred : String × β → Bool)
    (l2 : List (String × β)) :
    ∀ d : List (String × β), d.find? pred = none →
      (d ++ l2).find? pred = l2.find? pred := by
  intro d
  induction d with
  | nil => intro _; rfl
  | cons p rest ih =>
      intro h
      rw [List.find?_cons] at h
      by_cases hp : pred p = true
      · rw [hp] at h; cases h
      · rw [List.cons_append, List.find?_cons]
        rw [Bool.not_eq_true] at hp
        rw [hp] at h ⊢
        exact ih h

lemma aget_aset_self {β : Type} (d : List (String × β)) (k : String) (v : β) :
    aget (aset d k v) k = some v := by
  unfold aset aget
  split
  · rename_i hany
    rw [find?_map_upd k v d hany]
    rfl
  · rename_i hany
    have hnone : d.find? (fun p => p.1 == k) = none := by
      rw [List.find?_eq_none]
      intro p hp hpk
      exact hany (List.any_eq_true.mpr ⟨p, hp, hpk⟩)
    rw [find?_append_of_none _ _ d hnone]
    simp [List.find?_cons]

lemma aget_aset_ne {β : Type} (d : List (String × β)) (k k' : String) (v : β)
    (hne : k' ≠ k) : aget (aset d k v) k' = aget d k' := by
  unfold aset aget
  split
  · rename_i hany
    clear hany
    induction d with
    | nil => rfl
    | cons p rest ih =>
        by_cases hpk : (p.1 == k) = true
        · have hp1 : p.1 = k := by simpa using hpk
          have hcond : ((k, v).1 == k') = false := by
            simp only [beq_eq_false_iff_ne, ne_eq]
            intro h; exact hne (h.symm)
          have hcond' : (p.1 == k') = false := by
            rw [hp1]
            simp only [beq_eq_false_iff_ne, ne_eq]
            intro h; exact hne (h.symm)
          simp only [List.map_cons, if_pos hpk, List.find?_cons, hcond, hcond']
          exact ih
        · simp only [List.map_cons, if_neg hpk, List.find?_cons]
          by_cases hp' : (p.1 == k') = true
          · rw [hp']
          · rw [Bool.not_eq_true] at hp'
            rw [hp']
            exact ih
  · cases hf : d.find? (fun p => p.1 == k') with
    | some p => rw [List.find?_append, hf]; rfl
    | none =>
        rw [find?_append_of_none _ _ d hf]
        have : (((k, v)).1 == k') = false := by
          simp only [beq_eq_false_iff_ne, ne_eq]
          intro h; exact hne h.symm
        simp [List.find?_cons, this, hf]

lemma aget_aset_isSome {β : Type} (d : List (String × β)) (k k' : String) (v : β)
    (h : (aget d k').isSome) : (aget (aset d k v) k').isSome := by
  by_cases hk : k' = k
  · rw [hk, aget_aset_self]; rfl
  · rw [aget_aset_ne d k k' v hk]; exact h

lemma compute_best_disabled (d : List (String × Option ℚ)) :
    compute_best d true = ⟨"DISABLED", none, 0, none, 0, "DISABLED"⟩ := rfl

lemma foldl_preserve {α β : Type} (P : β → Prop) (f : β → α → β)
    (hstep : ∀ b a, P b → P (f b a)) :
    ∀ (l : List α) (b : β), P b → P (l.foldl f b) := by
  intro l
  induction l with
  | nil => intro b hb; exact hb
  | cons a rest ih => intro b hb; exact ih (f b a) (hstep b a hb)

lemma bestFold_dis2_beam (d1 : Bool)
    (items : List (String × (List (String × Option ℚ) × List (String × Option ℚ)))) :
    ∀ p ∈ (bestFold items d1 true).ant2_best_beam, p.2 = "DISABLED" := by
  unfold bestFold
  apply foldl_preserve
    (fun acc : UnionBest => ∀ p ∈ acc.ant2_best_beam, p.2 = "DISABLED")
  · intro acc it hacc p hp
    rcases mem_aset acc.ant2_best_beam it.1 (compute_best it.2.2 true).beam p hp with
      h | h
    · exact hacc p h
    · rw [h, compute_best_disabled]
  · intro p hp
    simp at hp

lemma bestFold_dis2_conf (d1 : Bool)
    (items : List (String × (List (String × Option ℚ) × List (String × Option ℚ)))) :
    ∀ p ∈ (bestFold items d1 true).ant2_best_confidence, p.2 = "DISABLED" := by
  unfold bestFold
  apply foldl_preserve
    (fun acc : UnionBest => ∀ p ∈ acc.ant2_best_confidence, p.2 = "DISABLED")
  · intro acc it hacc p hp
    rcases mem_aset acc.ant2_best_confidence it.1
      (compute_best it.2.2 true).confidence p hp with h | h
    · exact hacc p h
    · rw [h, compute_best_disabled]
  · intro p hp
    simp at hp

lemma bestFold_dis1_beam (d2 : Bool)
    (items : List (String × (List (String × Option ℚ) × List (String × Option ℚ)))) :
    ∀ p ∈ (bestFold items true d2).ant1_best_beam, p.2 = "DISABLED" := by
  unfold bestFold
  apply foldl_preserve
    (fun acc : UnionBest => ∀ p ∈ acc.ant1_best_beam, p.2 = "DISABLED")
  · intro acc it hacc p hp
    rcases mem_aset acc.ant1_best_beam it.1 (compute_best it.2.1 true).beam p hp with
      h | h
    · exact hacc p h
    · rw [h, compute_best_disabled]
  · intro p hp
    simp at hp

lemma bestFold_dis1_conf (d2 : Bool)
    (items : List (String × (List (String × Option ℚ) × List (String × Option ℚ)))) :
    ∀ p ∈ (bestFold items true d2).ant1_best_confidence, p.2 = "DISABLED" := by
  unfold bestFold
  apply foldl_preserve
    (fun acc : UnionBest => ∀ p ∈ acc.ant1_best_confidence, p.2 = "DISABLED")
  · intro acc it hacc p hp
    rcases mem_aset acc.ant1_best_confidence it.1
      (compute_best it.2.1 true).confidence p hp with h | h
    · exact hacc p h
    · rw [h, compute_best_disabled]
  · intro p hp
    simp at hp

lemma bestFold_key_ant2 (d1 d2 : Bool) (s : String) :
    ∀ (items : List (String × (List (String × Option ℚ) × List (String × Option ℚ))))
      (acc : UnionBest),
      ((∃ it ∈ items, it.1 = s) ∨ (aget acc.ant2_best_beam s).isSome) →
      (aget ((items.foldl (bestFoldStep d1 d2) acc)).ant2_best_beam s).isSome := by
  intro items
  induction items with
  | nil =>
      intro acc h
      rcases h with ⟨it, hit, _⟩ | h
      · simp at hit
      · exact h
  | cons it rest ih =>
      intro acc h
      apply ih
      rcases h with ⟨it', hit', hs⟩ | hsome
      · rcases List.mem_cons.mp hit' with rfl | hmem
        · right
          show (aget (aset acc.ant2_best_beam it'.1 _) s).isSome
          rw [← hs, aget_aset_self]
          rfl
        · left; exact ⟨it', hmem, hs⟩
      · right
        exact aget_aset_isSome _ _ _ _ hsome

lemma bestFold_key_ant1 (d1 d2 : Bool) (s : String) :
    ∀ (items : List (String × (List (String × Option ℚ) × List (String × Option ℚ))))
      (acc : UnionBest),
      ((∃ it ∈ items, it.1 = s) ∨ (aget acc.ant1_best_beam s).isSome) →
      (aget ((items.foldl (bestFoldStep d1 d2) acc)).ant1_best_beam s).isSome := by
  intro items
  induction items with
  | nil =>
      intro acc h
      rcases h with ⟨it, hit, _⟩ | h
      · simp at hit
      · exact h
  | cons it rest ih =>
      intro acc h
      apply ih
      rcases h with ⟨it', hit', hs⟩ | hsome
      · rcases List.mem_cons.mp hit' with rfl | hmem
        · right
          show (aget (aset acc.ant1_best_beam it'.1 _) s).isSome
          rw [← hs, aget_aset_self]
          rfl
        · left; exact ⟨it', hmem, hs⟩
      · right
        exact aget_aset_isSome _ _ _ _ hsome

lemma tbbInit_key (names : List String) (s : String) :
    ∀ (suffixes : List String)
      (acc : List (String × (List (String × Option ℚ) × List (String × Option ℚ)))),
      (s ∈ suffixes ∨ (aget acc s).isSome) →
      (aget (suffixes.foldl
        (fun d n => aset d n (dictInit names, dictInit names)) acc) s).isSome := by
  intro suffixes
  induction suffixes with
  | nil =>
      intro acc h
      rcases h with h | h
      · simp at h
      · exact h
  | cons n rest ih =>
      intro acc h
      apply ih
      rcases h with h | hsome
      · rcases List.mem_cons.mp h with rfl | hmem
        · right
          rw [aget_aset_self]
          rfl
        · left; exact hmem
      · right
        exact aget_aset_isSome _ _ _ _ hsome

lemma tbbUpdate_key
    (d : List (String × (List (String × Option ℚ) × List (String × Option ℚ))))
    (ts : TagStepResult) (s : String) (h : (aget d s).isSome) :
    (aget (tbbUpdate d ts) s).isSome := by
  unfold tbbUpdate
  cases aget d ts.tag_suffix with
  | none => exact h
  | some pair => exact aget_aset_isSome _ _ _ _ h

lemma tbb_key (tags : List Tag) (names : List String) (outs : List StepOut)
    (s : String) (hs : s ∈ tags.map Tag.suffix) :
    (aget (outs.foldl
      (fun d o => o.tagSteps.foldl (fun d ts => tbbUpdate d ts) d)
      (tbbInit (tags.map Tag.suffix) names)) s).isSome := by
  apply foldl_preserve
    (fun d : List (String × (List (String × Option ℚ) × List (String × Option ℚ))) =>
      (aget d s).isSome)
  · intro d o hd
    apply foldl_preserve
      (fun d : List (String × (List (String × Option ℚ) × List (String × Option ℚ))) =>
        (aget d s).isSome)
    · intro d ts hd'
      exact tbbUpdate_key d ts s hd'
    · exact hd
  · exact tbbInit_key names s (tags.map Tag.suffix) [] (Or.inl hs)

lemma aggregateOuts_disabled2 (tags : List Tag) (active : List ℤ)
    (names : List String) (outs : List StepOut) (rn : ℕ)
    (h2 : (2 : ℤ) ∉ active) :
    (∀ s v, aget (aggregateOuts tags active names outs rn).best.ant2_best_beam s =
      some v → v = "DISABLED") ∧
    (∀ s v, aget (aggregateOuts tags active names outs rn).best.ant2_best_confidence s =
      some v → v = "DISABLED") ∧
    (∀ t ∈ tags,
      (aget (aggregateOuts tags active names outs rn).best.ant2_best_beam
        t.suffix).isSome) ∧
    (aggregateOuts tags active names outs rn).ant2_missed_suffixes = [] ∧
    (aggregateOuts tags active names outs rn).ant2_missed_labels = [] := by
  have hdec : decide ((2 : ℤ) ∉ active) = true := decide_eq_true h2
  have hbest : (aggregateOuts tags active names outs rn).best =
      bestFold (outs.foldl
        (fun d o => o.tagSteps.foldl (fun d ts => tbbUpdate d ts) d)
        (tbbInit (tags.map Tag.suffix) names))
        (decide ((1 : ℤ) ∉ active)) true := by
    unfold aggregateOuts
    rw [hdec]
  have hmiss : (if (2 : ℤ) ∈ active then
      get_missed_tags tags (outs.foldl (fun a o => a ∪ o.raw.ant2_targets) ∅)
      else []) = [] := if_neg h2
  refine ⟨?_, ?_, ?_, ?_, ?_⟩
  · intro s v hv
    rw [hbest] at hv
    exact bestFold_dis2_beam _ _ _ (aget_some_mem _ _ _ hv)
  · intro s v hv
    rw [hbest] at hv
    exact bestFold_dis2_conf _ _ _ (aget_some_mem _ _ _ hv)
  · intro t ht
    rw [hbest]
    unfold bestFold
    apply bestFold_key_ant2
    left
    obtain ⟨w, hw⟩ := Option.isSome_iff_exists.mp
      (tbb_key tags names outs t.suffix (List.mem_map_of_mem Tag.suffix ht))
    exact ⟨(t.suffix, w), aget_some_mem _ _ _ hw, rfl⟩
  · show (if (2 : ℤ) ∈ active then _ else []).map Tag.suffix = []
    rw [hmiss]
    rfl
  · show (if (2 : ℤ) ∈ active then _ else []).map Tag.label = []
    rw [hmiss]
    rfl

lemma aggregateOuts_disabled1 (tags : List Tag) (active : List ℤ)
    (names : List String) (outs : List StepOut) (rn : ℕ)
    (h1 : (1 : ℤ) ∉ active) :
    (∀ s v, aget (aggregateOuts tags active names outs rn).best.ant1_best_beam s =
      some v → v = "DISABLED") ∧
    (∀ s v, aget (aggregateOuts tags active names outs rn).best.ant1_best_confidence s =
      some v → v = "DISABLED") ∧
    (∀ t ∈ tags,
      (aget (aggregateOuts tags active names outs rn).best.ant1_best_beam
        t.suffix).isSome) ∧
    (aggregateOuts tags active names outs rn).ant1_missed_suffixes = [] ∧
    (aggregateOuts tags active names outs rn).ant1_missed_labels = [] := by
  have hdec : decide ((1 : ℤ) ∉ active) = true := decide_eq_true h1
  have hbest : (aggregateOuts tags active names outs rn).best =
      bestFold (outs.foldl
        (fun d o => o.tagSteps.foldl (fun d ts => tbbUpdate d ts) d)
        (tbbInit (tags.map Tag.suffix) names))
        true (decide ((2 : ℤ) ∉ active)) := by
    unfold aggregateOuts
    rw [hdec]
  have hmiss : (if (1 : ℤ) ∈ active then
      get_missed_tags tags (outs.foldl (fun a o => a ∪ o.raw.ant1_targets) ∅)
      else []) = [] := if_neg h1
  refine ⟨?_, ?_, ?_, ?_, ?_⟩
  · intro s v hv
    rw [hbest] at hv
    exact bestFold_dis1_beam _ _ _ (aget_some_mem _ _ _ hv)
  · intro s v hv
    rw [hbest] at hv
    exact bestFold_dis1_conf _ _ _ (aget_some_mem _ _ _ hv)
  · intro t ht
    rw [hbest]
    unfold bestFold
    apply bestFold_key_ant1
    left
    obtain ⟨w, hw⟩ := Option.isSome_iff_exists.mp
      (tbb_key tags names outs t.suffix (List.mem_map_of_mem Tag.suffix ht))
    exact ⟨(t.suffix, w), aget_some_mem _ _ _ hw, rfl⟩
  · show (if (1 : ℤ) ∈ active then _ else []).map Tag.suffix = []
    rw [hmiss]
    rfl
  · show (if (1 : ℤ) ∈ active then _ else []).map Tag.label = []
    rw [hmiss]
    rfl

lemma outerBlocks_union_shape (stop : ℕ → Bool) (lut : CorrectedBeamLUT)
    (tags : List Tag) (cfg : RunConfig) (steps : List (String × ℚ))
    (env : ℕ → ℕ → Inventory) :
    ∀ (n r ci : ℕ), ∀ blk ∈ outerBlocks stop lut tags cfg steps env n r ci,
      ∃ outs rn, blk.union =
        aggregateOuts tags cfg.active_antennas (steps.map Prod.fst) outs rn := by
  intro n
  induction n with
  | zero =>
      intro r ci blk hblk
      simp [outerBlocks] at hblk
  | succ m ih =>
      intro r ci blk hblk
      rw [outerBlocks] at hblk
      split at hblk
      · simp at hblk
      · rcases List.mem_cons.mp hblk with rfl | hmem
        · exact ⟨_, _, rfl⟩
        · exact ih (r + 1) _ blk hmem

lemma runProtocol_union_mem (lut : CorrectedBeamLUT) (tags : List Tag)
    (cfg : RunConfig) (stop : ℕ → Bool) (env : ℕ → ℕ → Inventory)
    (u : UnionResult)
    (hu : u ∈ (runProtocol lut tags cfg stop env).union_results) :
    ∃ blk ∈ outerBlocks stop lut tags cfg (beamStepsFor lut cfg) env
      cfg.repeats 0 0, u = blk.union := by
  rw [runProtocol] at hu
  split at hu
  · simp at hu
  · split at hu
    · simp at hu
    · simp only [List.mem_map] at hu
      obtain ⟨blk, hblk, rfl⟩ := hu
      exact ⟨blk, hblk, rfl⟩

/-- **C6.** For an antenna not in `activeAntennas`, every per-tag best-beam
field for that antenna in every UnionResult of the run is `DISABLED` (beam
and confidence; every registered tag has such an entry), regardless of
observations, and that antenna's union missed-tag lists are empty
regardless of registry size. -/
theorem c6_disabled_antenna (lut : CorrectedBeamLUT) (tags : List Tag)
    (cfg : RunConfig) (stop : ℕ → Bool) (env : ℕ → ℕ → Inventory) :
    ((2 : ℤ) ∉ cfg.active_antennas →
      ∀ u ∈ (runProtocol lut tags cfg stop env).union_results,
        (∀ s v, aget u.best.ant2_best_beam s = some v → v = "DISABLED") ∧
        (∀ s v, aget u.best.ant2_best_confidence s = some v → v = "DISABLED") ∧
        (∀ t ∈ tags, (aget u.best.ant2_best_beam t.suffix).isSome) ∧
        u.ant2_missed_suffixes = [] ∧ u.ant2_missed_labels = []) ∧
    ((1 : ℤ) ∉ cfg.active_antennas →
      ∀ u ∈ (runProtocol lut tags cfg stop env).union_results,
        (∀ s v, aget u.best.ant1_best_beam s = some v → v = "DISABLED") ∧
        (∀ s v, aget u.best.ant1_best_confidence s = some v → v = "DISABLED") ∧
        (∀ t ∈ tags, (aget u.best.ant1_best_beam t.suffix).isSome) ∧
        u.ant1_missed_suffixes = [] ∧ u.ant1_missed_labels = []) := by
  constructor
  · intro h2 u hu
    obtain ⟨blk, hblk, rfl⟩ := runProtocol_union_mem lut tags cfg stop env u hu
    obtain ⟨outs, rn, hshape⟩ := outerBlocks_union_shape stop lut tags cfg
      (beamStepsFor lut cfg) env cfg.repeats 0 0 blk hblk
    rw [hshape]
    exact aggregateOuts_disabled2 tags cfg.active_antennas _ outs rn h2
  · intro h1 u hu
    obtain ⟨blk, hblk, rfl⟩ := runProtocol_union_mem lut tags cfg stop env u hu
    obtain ⟨outs, rn, hshape⟩ := outerBlocks_union_shape stop lut tags cfg
      (beamStepsFor lut cfg) env cfg.repeats 0 0 blk hblk
    rw [hshape]
    exact aggregateOuts_disabled1 tags cfg.active_antennas _ outs rn h1

theorem c6_disabled_antenna_witness :
    aget ((runProtocol ⟨false, [], []⟩ [⟨"ABCD", "T", ""⟩]
        ⟨1, 0, [1], 3, true, true⟩ (fun _ => false)
        (fun _ _ => [])).union_results.headI.best.ant2_best_beam) "ABCD" =
      some "DISABLED" ∧
    (runProtocol ⟨false, [], []⟩ [⟨"ABCD", "T", ""⟩]
        ⟨1, 0, [1], 3, true, true⟩ (fun _ => false)
        (fun _ _ => [])).union_results.headI.ant2_missed_suffixes = [] := by
  have h := (c6_disabled_antenna ⟨false, [], []⟩ [⟨"ABCD", "T", ""⟩]
    ⟨1, 0, [1], 3, true, true⟩ (fun _ => false) (fun _ _ => [])).1
    (by decide)
    ((runProtocol ⟨false, [], []⟩ [⟨"ABCD", "T", ""⟩]
        ⟨1, 0, [1], 3, true, true⟩ (fun _ => false)
        (fun _ _ => [])).union_results.headI)
    (by with_unfolding_all decide)
  obtain ⟨v, hv⟩ := Option.isSome_iff_exists.mp
    (h.2.2.1 ⟨"ABCD", "T", ""⟩ (by decide))
  exact ⟨by rw [hv, h.1 "ABCD" v hv], h.2.2.2.1⟩

lemma le_foldl_union (f : StepOut → Finset String) :
    ∀ (l : List StepOut) (s : Finset String),
      s ⊆ l.foldl (fun a o => a ∪ f o) s := by
  intro l
  induction l with
  | nil => intro s; exact Finset.Subset.refl s
  | cons x rest ih =>
      intro s
      exact Finset.Subset.trans Finset.subset_union_left (ih (s ∪ f x))

lemma subset_foldl_union (f : StepOut → Finset String) :
    ∀ (l : List StepOut) (s : Finset String) (o : StepOut), o ∈ l →
      f o ⊆ l.foldl (fun a o => a ∪ f o) s := by
  intro l
  induction l with
  | nil => intro s o ho; simp at ho
  | cons x rest ih =>
      intro s o ho
      rcases List.mem_cons.mp ho with rfl | hmem
      · exact Finset.Subset.trans Finset.subset_union_right (le_foldl_union f rest _)
      · exact ih _ o hmem

lemma innerSteps_targets (stop : ℕ → Bool) (lut : CorrectedBeamLUT)
    (tags : List Tag) (pc : ℤ) (env_r : ℕ → Inventory) :
    ∀ (steps : List (String × ℚ)) (i ci : ℕ),
      ∀ o ∈ (innerSteps stop lut tags pc env_r steps i ci).1,
        o.sr.ant1_targets_seen_n = o.raw.ant1_targets.card ∧
        o.sr.ant2_targets_seen_n = o.raw.ant2_targets.card := by
  intro steps
  induction steps with
  | nil => intro i ci o ho; simp [innerSteps] at ho
  | cons st rest ih =>
      intro i ci o ho
      obtain ⟨beam, angle⟩ := st
      rw [innerSteps] at ho
      split at ho
      · simp at ho
      · rcases List.mem_cons.mp (by simpa using ho) with rfl | hmem
        · exact ⟨rfl, rfl⟩
        · exact ih (i + 1) (ci + 1) o hmem

lemma outerBlocks_shape (stop : ℕ → Bool) (lut : CorrectedBeamLUT)
    (tags : List Tag) (cfg : RunConfig) (steps : List (String × ℚ))
    (env : ℕ → ℕ → Inventory) :
    ∀ (n r ci : ℕ), ∀ blk ∈ outerBlocks stop lut tags cfg steps env n r ci,
      ∃ r' ci', blk = (repeatBlock stop lut tags cfg.port_config
        cfg.active_antennas steps (env r') (r' + 1) ci').1 := by
  intro n
  induction n with
  | zero =>
      intro r ci blk hblk
      simp [outerBlocks] at hblk
  | succ m ih =>
      intro r ci blk hblk
      rw [outerBlocks] at hblk
      split at hblk
      · simp at hblk
      · rcases List.mem_cons.mp hblk with rfl | hmem
        · exact ⟨r, ci + 1, rfl⟩
        · exact ih (r + 1) _ blk hmem

/-- **C4.** In every repeat block produced by the run loop, for each
antenna, the union target-seen count is at least every single step's
target-seen count (so in particular at least their maximum): coverage is
monotonically non-decreasing as beam states are folded into the union. -/
theorem c4_coverage_monotonicity (stop : ℕ → Bool) (lut : CorrectedBeamLUT)
    (tags : List Tag) (cfg : RunConfig) (steps : List (String × ℚ))
    (env : ℕ → ℕ → Inventory) (n r ci : ℕ) :
    ∀ blk ∈ outerBlocks stop lut tags cfg steps env n r ci,
      ∀ sr ∈ blk.steps,
        sr.ant1_targets_seen_n ≤ blk.union.ant1_targets_seen ∧
        sr.ant2_targets_seen_n ≤ blk.union.ant2_targets_seen := by
  intro blk hblk sr hsr
  obtain ⟨r', ci', rfl⟩ := outerBlocks_shape stop lut tags cfg steps env
    n r ci blk hblk
  rw [repeatBlock] at hsr ⊢
  simp only [List.mem_map] at hsr
  obtain ⟨o, ho, rfl⟩ := hsr
  have htg := innerSteps_targets stop lut tags cfg.port_config (env r')
    steps 0 ci' o ho
  constructor
  · rw [htg.1]
    show (o.raw.ant1_targets).card ≤
      ((innerSteps stop lut tags cfg.port_config (env r') steps 0 ci').1.foldl
        (fun (a : Finset String) (o : StepOut) => a ∪ o.raw.ant1_targets) ∅).card
    exact Finset.card_le_card
      (subset_foldl_union (fun o => o.raw.ant1_targets) _ ∅ o ho)
  · rw [htg.2]
    show (o.raw.ant2_targets).card ≤
      ((innerSteps stop lut tags cfg.port_config (env r') steps 0 ci').1.foldl
        (fun (a : Finset String) (o : StepOut) => a ∪ o.raw.ant2_targets) ∅).card
    exact Finset.card_le_card
      (subset_foldl_union (fun o => o.raw.ant2_targets) _ ∅ o ho)

theorem c4_coverage_monotonicity_witness :
    (outerBlocks (fun _ => false) ⟨false, [], []⟩ [⟨"ABCD", "T", ""⟩]
        ⟨1, 0, [1, 2], 3, true, true⟩ [("LEFT", 0)]
        (fun _ _ => [("XXABCD", ⟨-50, 1, 0, 1⟩)]) 1 0 0).headI ∈
      outerBlocks (fun _ => false) ⟨false, [], []⟩ [⟨"ABCD", "T", ""⟩]
        ⟨1, 0, [1, 2], 3, true, true⟩ [("LEFT", 0)]
        (fun _ _ => [("XXABCD", ⟨-50, 1, 0, 1⟩)]) 1 0 0 ∧
    (outerBlocks (fun _ => false) ⟨false, [], []⟩ [⟨"ABCD", "T", ""⟩]
        ⟨1, 0, [1, 2], 3, true, true⟩ [("LEFT", 0)]
        (fun _ _ => [("XXABCD", ⟨-50, 1, 0, 1⟩)]) 1 0 0).headI.steps.headI ∈
      (outerBlocks (fun _ => false) ⟨false, [], []⟩ [⟨"ABCD", "T", ""⟩]
        ⟨1, 0, [1, 2], 3, true, true⟩ [("LEFT", 0)]
        (fun _ _ => [("XXABCD", ⟨-50, 1, 0, 1⟩)]) 1 0 0).headI.steps ∧
    ((outerBlocks (fun _ => false) ⟨false, [], []⟩ [⟨"ABCD", "T", ""⟩]
        ⟨1, 0, [1, 2], 3, true, true⟩ [("LEFT", 0)]
        (fun _ _ => [("XXABCD", ⟨-50, 1, 0, 1⟩)]) 1 0 0).headI.steps.headI.ant1_targets_seen_n ≤
      (outerBlocks (fun _ => false) ⟨false, [], []⟩ [⟨"ABCD", "T", ""⟩]
        ⟨1, 0, [1, 2], 3, true, true⟩ [("LEFT", 0)]
        (fun _ _ => [("XXABCD", ⟨-50, 1, 0, 1⟩)]) 1 0 0).headI.union.ant1_targets_seen) := by
  refine ⟨?_, ?_, ?_⟩
  · with_unfolding_all decide
  · with_unfolding_all decide
  · exact (c4_coverage_monotonicity (fun _ => false) ⟨false, [], []⟩
      [⟨"ABCD", "T", ""⟩] ⟨1, 0, [1, 2], 3, true, true⟩ [("LEFT", 0)]
      (fun _ _ => [("XXABCD", ⟨-50, 1, 0, 1⟩)]) 1 0 0 _
      (by with_unfolding_all decide) _ (by with_unfolding_all decide)).1

lemma innerSteps_false_spec (lut : CorrectedBeamLUT) (tags : List Tag) (pc : ℤ)
    (env_r : ℕ → Inventory) :
    ∀ (steps : List (String × ℚ)) (i ci : ℕ),
      (innerSteps (fun _ => false) lut tags pc env_r steps i ci).2 =
        ci + steps.length ∧
      (innerSteps (fun _ => false) lut tags pc env_r steps i ci).1.length =
        steps.length := by
  intro steps
  induction steps with
  | nil => intro i ci; simp [innerSteps]
  | cons st rest ih =>
      intro i ci
      obtain ⟨beam, angle⟩ := st
      rw [innerSteps, if_neg (by simp : ¬ ((false : Bool) = true))]
      have h := ih (i + 1) (ci + 1)
      simp only [List.length_cons]
      constructor
      · rw [h.1]; omega
      · simp [h.2]

lemma innerSteps_thr_full (T : ℕ) (lut : CorrectedBeamLUT) (tags : List Tag)
    (pc : ℤ) (env_r : ℕ → Inventory) :
    ∀ (steps : List (String × ℚ)) (i ci : ℕ), ci + steps.length ≤ T →
      innerSteps (fun j => decide (T ≤ j)) lut tags pc env_r steps i ci =
        innerSteps (fun _ => false) lut tags pc env_r steps i ci := by
  intro steps
  induction steps with
  | nil => intro i ci _; rfl
  | cons st rest ih =>
      intro i ci hle
      obtain ⟨beam, angle⟩ := st
      rw [innerSteps, innerSteps, if_neg (by simp : ¬ ((false : Bool) = true))]
      have hci : ¬ (T ≤ ci) := by simp at hle ⊢; omega
      rw [decide_eq_false hci, if_neg (by simp : ¬ ((false : Bool) = true))]
      rw [ih (i + 1) (ci + 1) (by simp at hle ⊢; omega)]

lemma innerSteps_thr_cut (T : ℕ) (lut : CorrectedBeamLUT) (tags : List Tag)
    (pc : ℤ) (env_r : ℕ → Inventory) :
    ∀ (steps : List (String × ℚ)) (i ci : ℕ), ci ≤ T →
      T < ci + steps.length →
      (innerSteps (fun j => decide (T ≤ j)) lut tags pc env_r steps i ci).1 =
        (innerSteps (fun _ => false) lut tags pc env_r steps i ci).1.take (T - ci) ∧
      (innerSteps (fun j => decide (T ≤ j)) lut tags pc env_r steps i ci).2 =
        T + 1 := by
  intro steps
  induction steps with
  | nil => intro i ci h1 h2; simp at h2; omega
  | cons st rest ih =>
      intro i ci h1 h2
      obtain ⟨beam, angle⟩ := st
      rw [innerSteps, innerSteps, if_neg (by simp : ¬ ((false : Bool) = true))]
      by_cases hci : T ≤ ci
      · have hT : T = ci := le_antisymm hci h1
        rw [decide_eq_true hci]
        subst hT
        simp
      · rw [decide_eq_false hci, if_neg (by simp : ¬ ((false : Bool) = true))]
        have hrec := ih (i + 1) (ci + 1) (by omega)
          (by simp only [List.length_cons] at h2; omega)
        simp only
        constructor
        · rw [hrec.1]
          have hk : T - ci = (T - (ci + 1)) + 1 := by omega
          rw [hk, List.take_succ_cons]
        · exact hrec.2

lemma getLast?_cons_ne {α : Type} (a : α) (l : List α) (h : l ≠ []) :
    (a :: l).getLast? = l.getLast? := by
  cases l with
  | nil => exact absurd rfl h
  | cons b t => exact List.getLast?_cons_cons

lemma outerBlocks_stopped (stop : ℕ → Bool) (lut : CorrectedBeamLUT)
    (tags : List Tag) (cfg : RunConfig) (steps : List (String × ℚ))
    (env : ℕ → ℕ → Inventory) (n r ci : ℕ) (h : stop ci = true ∨ n = 0) :
    outerBlocks stop lut tags cfg steps env n r ci = [] := by
  cases n with
  | zero => rfl
  | succ m =>
      rcases h with h | h
      · rw [outerBlocks, if_pos h]
      · cases h

lemma repeatBlock_eq (stop : ℕ → Bool) (lut : CorrectedBeamLUT)
    (tags : List Tag) (pc : ℤ) (act : List ℤ) (steps : List (String × ℚ))
    (env_r : ℕ → Inventory) (rn ci : ℕ) :
    repeatBlock stop lut tags pc act steps env_r rn ci =
      (⟨((innerSteps stop lut tags pc env_r steps 0 ci).1).map StepOut.sr,
        (((innerSteps stop lut tags pc env_r steps 0 ci).1).map
          StepOut.tagSteps).flatten,
        (((innerSteps stop lut tags pc env_r steps 0 ci).1).map
          StepOut.mcuCalls).flatten,
        aggregateOuts tags act (steps.map Prod.fst)
          (innerSteps stop lut tags pc env_r steps 0 ci).1 rn⟩,
       (innerSteps stop lut tags pc env_r steps 0 ci).2) := rfl

lemma outerBlocks_thr_main (T : ℕ) (lut : CorrectedBeamLUT) (tags : List Tag)
    (cfg : RunConfig) (steps : List (String × ℚ)) (env : ℕ → ℕ → Inventory)
    (hL : 1 ≤ steps.length) :
    ∀ (n r ci : ℕ), 1 ≤ n → T < ci + n * (1 + steps.length) →
      (((outerBlocks (fun j => decide (T ≤ j)) lut tags cfg steps env
        n r ci).map Block.steps).flatten).length < n * steps.length ∧
      ∃ rest, ((outerBlocks (fun _ => false) lut tags cfg steps env
        n r ci).map Block.steps).flatten =
        ((outerBlocks (fun j => decide (T ≤ j)) lut tags cfg steps env
          n r ci).map Block.steps).flatten ++ rest := by
  intro n
  induction n with
  | zero => intro r ci h1 _; omega
  | succ m ih =>
      intro r ci _ hT
      rw [Nat.succ_mul] at hT
      by_cases hci : T ≤ ci
      · rw [outerBlocks, if_pos (decide_eq_true hci)]
        constructor
        · simp only [List.map_nil, List.flatten_nil, List.length_nil]
          have := Nat.mul_pos (show 0 < m + 1 by omega) (show 0 < steps.length by omega)
          omega
        · exact ⟨((outerBlocks (fun _ => false) lut tags cfg steps env
            (m + 1) r ci).map Block.steps).flatten, by simp⟩
      · have hstop : ¬ ((decide (T ≤ ci)) = true) := by
          simp only [decide_eq_true_eq]
          exact hci
        rw [outerBlocks, outerBlocks, if_neg hstop,
          if_neg (by simp : ¬ ((false : Bool) = true))]
        dsimp only
        by_cases hfull : ci + 1 + steps.length ≤ T
        · have hinner := innerSteps_thr_full T lut tags cfg.port_config (env r)
            steps 0 (ci + 1) hfull
          have hspec := innerSteps_false_spec lut tags cfg.port_config (env r)
            steps 0 (ci + 1)
          have hm1 : 1 ≤ m := by
            by_contra hm
            have : m = 0 := by omega
            subst this
            omega
          have hT' : T < (ci + 1 + steps.length) + m * (1 + steps.length) := by
            omega
          have hrec := ih (r + 1) (ci + 1 + steps.length) hm1 hT'
          rw [repeatBlock_eq, repeatBlock_eq, hinner, hspec.1]
          simp only [List.map_cons, List.flatten_cons, List.length_append,
            List.length_map, hspec.2]
          constructor
          · have := hrec.1
            rw [Nat.succ_mul]
            omega
          · obtain ⟨rest, hrest⟩ := hrec.2
            exact ⟨rest, by rw [hrest, List.append_assoc]⟩
        · have hcut := innerSteps_thr_cut T lut tags cfg.port_config (env r)
            steps 0 (ci + 1) (by omega) (by omega)
          have hspec := innerSteps_false_spec lut tags cfg.port_config (env r)
            steps 0 (ci + 1)
          have htail : outerBlocks (fun j => decide (T ≤ j)) lut tags cfg steps
              env m (r + 1)
              ((repeatBlock (fun j => decide (T ≤ j)) lut tags cfg.port_config
                cfg.active_antennas steps (env r) (r + 1) (ci + 1)).2) = [] := by
            apply outerBlocks_stopped
            left
            rw [repeatBlock_eq]
            simp only [hcut.2]
            simp
          rw [htail, repeatBlock_eq, repeatBlock_eq]
          simp only [List.map_cons, List.map_nil, List.flatten_cons,
            List.flatten_nil, List.append_nil]
          rw [hcut.1, List.map_take]
          constructor
          · rw [List.length_take, List.length_map, hspec.2]
            have hlt : T - (ci + 1) < steps.length := by omega
            rw [min_eq_left hlt.le, Nat.succ_mul]
            omega
          · refine ⟨((innerSteps (fun _ => false) lut tags cfg.port_config (env r)
              steps 0 (ci + 1)).1.map StepOut.sr).drop (T - (ci + 1)) ++
              ((outerBlocks (fun _ => false) lut tags cfg steps env m (r + 1)
                ((innerSteps (fun _ => false) lut tags cfg.port_config (env r)
                  steps 0 (ci + 1)).2)).map Block.steps).flatten, ?_⟩
            rw [← List.append_assoc, List.take_append_drop]

lemma runProtocol_ok (lut : CorrectedBeamLUT) (tags : List Tag)
    (cfg : RunConfig) (stop : ℕ → Bool) (env : ℕ → ℕ → Inventory)
    (hreader : cfg.reader_connected = true)
    (hmcu : (1 : ℤ) ∈ cfg.active_antennas → cfg.mcu_connected = true) :
    (runProtocol lut tags cfg stop env).success = true ∧
    (runProtocol lut tags cfg stop env).step_results =
      ((outerBlocks stop lut tags cfg (beamStepsFor lut cfg) env
        cfg.repeats 0 0).map Block.steps).flatten ∧
    (runProtocol lut tags cfg stop env).union_results =
      (outerBlocks stop lut tags cfg (beamStepsFor lut cfg) env
        cfg.repeats 0 0).map Block.union := by
  rw [runProtocol]
  rw [if_neg (by simp [hreader])]
  rw [if_neg (by rintro ⟨h1, h2⟩; rw [hmcu h1] at h2; cases h2)]
  exact ⟨rfl, rfl, rfl⟩

lemma beamStepsFor_len (lut : CorrectedBeamLUT) (cfg : RunConfig) :
    1 ≤ (beamStepsFor lut cfg).length := by
  rw [beamStepsFor]
  split
  · simp
  · split
    · simp
    · rw [List.length_map, beamAngles]
      split
      · simp
      · rename_i hlt
        rw [List.length_map, List.length_range]
        omega

/-- **C8.** If the cooperative stop flag becomes set mid-run (at some check
index below the total number of checks of an uninterrupted run) and the
preconditions hold, the run returns `success = true` with strictly fewer
step results than the configured total `repeats × beamStates`, and the
collected step results are exactly an unbroken prefix of the uninterrupted
run's step results (steps are never cut mid-step — the flag is only read at
beam-state iteration boundaries). -/
theorem c8_cancellation (lut : CorrectedBeamLUT) (tags : List Tag)
    (cfg : RunConfig) (env : ℕ → ℕ → Inventory) (T : ℕ)
    (hreader : cfg.reader_connected = true)
    (hmcu : (1 : ℤ) ∈ cfg.active_antennas → cfg.mcu_connected = true)
    (hT : T < cfg.repeats * (1 + (beamStepsFor lut cfg).length)) :
    (runProtocol lut tags cfg (fun i => decide (T ≤ i)) env).success = true ∧
    (runProtocol lut tags cfg (fun i => decide (T ≤ i)) env).step_results.length <
      cfg.repeats * (beamStepsFor lut cfg).length ∧
    ∃ rest, (runProtocol lut tags cfg (fun _ => false) env).step_results =
      (runProtocol lut tags cfg (fun i => decide (T ≤ i)) env).step_results ++
        rest := by
  have hok := runProtocol_ok lut tags cfg (fun i => decide (T ≤ i)) env
    hreader hmcu
  have hokF := runProtocol_ok lut tags cfg (fun _ => false) env hreader hmcu
  have hL := beamStepsFor_len lut cfg
  have hrep : 1 ≤ cfg.repeats := by
    by_contra h
    have h0 : cfg.repeats = 0 := by omega
    rw [h0] at hT
    simp at hT
  have hmain := outerBlocks_thr_main T lut tags cfg (beamStepsFor lut cfg) env
    hL cfg.repeats 0 0 hrep (by omega)
  refine ⟨hok.1, ?_, ?_⟩
  · rw [hok.2.1]
    exact hmain.1
  · obtain ⟨rest, hrest⟩ := hmain.2
    exact ⟨rest, by rw [hok.2.1, hokF.2.1, hrest]⟩

theorem c8_cancellation_witness :
    5 < 2 * (1 + (beamStepsFor ⟨false, [], []⟩
      ⟨2, 0, [1, 2], 3, true, true⟩).length) ∧
    ((runProtocol ⟨false, [], []⟩ [] ⟨2, 0, [1, 2], 3, true, true⟩
        (fun i => decide (5 ≤ i)) (fun _ _ => [])).success = true ∧
      (runProtocol ⟨false, [], []⟩ [] ⟨2, 0, [1, 2], 3, true, true⟩
        (fun i => decide (5 ≤ i)) (fun _ _ => [])).step_results.length <
        2 * (beamStepsFor ⟨false, [], []⟩ ⟨2, 0, [1, 2], 3, true, true⟩).length ∧
      ∃ rest, (runProtocol ⟨false, [], []⟩ [] ⟨2, 0, [1, 2], 3, true, true⟩
          (fun _ => false) (fun _ _ => [])).step_results =
        (runProtocol ⟨false, [], []⟩ [] ⟨2, 0, [1, 2], 3, true, true⟩
          (fun i => decide (5 ≤ i)) (fun _ _ => [])).step_results ++ rest) :=
  ⟨by decide,
   c8_cancellation ⟨false, [], []⟩ [] ⟨2, 0, [1, 2], 3, true, true⟩
     (fun _ _ => []) 5 rfl (fun _ => rfl) (by decide)⟩

lemma outerBlocks_thr_exact (T : ℕ) (lut : CorrectedBeamLUT) (tags : List Tag)
    (cfg : RunConfig) (steps : List (String × ℚ)) (env : ℕ → ℕ → Inventory) :
    ∀ (r k n r0 ci : ℕ), r < n → k < steps.length →
      T = ci + r * (1 + steps.length) + 1 + k →
      (outerBlocks (fun j => decide (T ≤ j)) lut tags cfg steps env
        n r0 ci).length = r + 1 ∧
      (((outerBlocks (fun j => decide (T ≤ j)) lut tags cfg steps env
        n r0 ci).map Block.steps).flatten).length = r * steps.length + k ∧
      (outerBlocks (fun j => decide (T ≤ j)) lut tags cfg steps env
        n r0 ci).getLast? =
        some ⟨((innerSteps (fun _ => false) lut tags cfg.port_config
            (env (r0 + r)) steps 0 (T - k)).1.take k).map StepOut.sr,
          (((innerSteps (fun _ => false) lut tags cfg.port_config
            (env (r0 + r)) steps 0 (T - k)).1.take k).map StepOut.tagSteps).flatten,
          (((innerSteps (fun _ => false) lut tags cfg.port_config
            (env (r0 + r)) steps 0 (T - k)).1.take k).map StepOut.mcuCalls).flatten,
          aggregateOuts tags cfg.active_antennas (steps.map Prod.fst)
            ((innerSteps (fun _ => false) lut tags cfg.port_config
              (env (r0 + r)) steps 0 (T - k)).1.take k) (r0 + r + 1)⟩ := by
  intro r
  induction r with
  | zero =>
      intro k n r0 ci hrn hk hT
      obtain ⟨n', rfl⟩ : ∃ n', n = n' + 1 := ⟨n - 1, by omega⟩
      rw [Nat.zero_mul] at hT
      have hstop : ¬ ((decide (T ≤ ci)) = true) := by
        simp only [decide_eq_true_eq]
        omega
      rw [outerBlocks, if_neg hstop]
      dsimp only
      have hcut := innerSteps_thr_cut T lut tags cfg.port_config (env r0)
        steps 0 (ci + 1) (by omega) (by omega)
      have hspec := innerSteps_false_spec lut tags cfg.port_config (env r0)
        steps 0 (ci + 1)
      have htail : outerBlocks (fun j => decide (T ≤ j)) lut tags cfg steps
          env n' (r0 + 1)
          ((repeatBlock (fun j => decide (T ≤ j)) lut tags cfg.port_config
            cfg.active_antennas steps (env r0) (r0 + 1) (ci + 1)).2) = [] := by
        apply outerBlocks_stopped
        left
        rw [repeatBlock_eq]
        simp only [hcut.2]
        simp
      rw [htail, repeatBlock_eq]
      have hTk : T - (ci + 1) = k := by omega
      have hTk2 : T - k = ci + 1 := by omega
      refine ⟨by simp, ?_, ?_⟩
      · simp only [List.map_cons, List.map_nil, List.flatten_cons,
          List.flatten_nil, List.append_nil]
        rw [hcut.1, hTk, List.map_take, List.length_take, List.length_map,
          hspec.2, Nat.zero_mul, Nat.zero_add]
        omega
      · rw [hTk2]
        simp only [List.getLast?_cons, List.getLast?_nil]
        rw [hcut.1, hTk]
        simp [Nat.add_zero]
  | succ r ih =>
      intro k n r0 ci hrn hk hT
      obtain ⟨n', rfl⟩ : ∃ n', n = n' + 1 := ⟨n - 1, by omega⟩
      rw [Nat.succ_mul] at hT
      have hstop : ¬ ((decide (T ≤ ci)) = true) := by
        simp only [decide_eq_true_eq]
        omega
      rw [outerBlocks, if_neg hstop]
      dsimp only
      have hfull : ci + 1 + steps.length ≤ T := by omega
      have hinner := innerSteps_thr_full T lut tags cfg.port_config (env r0)
        steps 0 (ci + 1) hfull
      have hspec := innerSteps_false_spec lut tags cfg.port_config (env r0)
        steps 0 (ci + 1)
      have hci2 : (repeatBlock (fun j => decide (T ≤ j)) lut tags
          cfg.port_config cfg.active_antennas steps (env r0) (r0 + 1)
          (ci + 1)).2 = ci + 1 + steps.length := by
        rw [repeatBlock_eq]
        simp only [hinner, hspec.1]
      have ihres := ih k n' (r0 + 1) (ci + 1 + steps.length) (by omega)
        hk (by omega)
      rw [hci2]
      have hr0 : r0 + 1 + r = r0 + (r + 1) := by omega
      rw [hr0] at ihres
      have hblklen : (repeatBlock (fun j => decide (T ≤ j)) lut tags
          cfg.port_config cfg.active_antennas steps (env r0) (r0 + 1)
          (ci + 1)).1.steps.length = steps.length := by
        rw [repeatBlock_eq]
        simp only [List.length_map]
        rw [hinner, hspec.2]
      have htailne : outerBlocks (fun j => decide (T ≤ j)) lut tags cfg steps
          env n' (r0 + 1) (ci + 1 + steps.length) ≠ [] := by
        intro hnil
        have := ihres.1
        rw [hnil] at this
        simp at this
      refine ⟨?_, ?_, ?_⟩
      · simp only [List.length_cons, ihres.1]
      · simp only [List.map_cons, List.flatten_cons, List.length_append,
          hblklen, ihres.2.1, Nat.succ_mul]
        omega
      · rw [getLast?_cons_ne _ _ htailne]
        exact ihres.2.2

lemma getLast?_map {α β : Type} (f : α → β) :
    ∀ (l : List α), (l.map f).getLast? = (l.getLast?).map f := by
  intro l
  induction l with
  | nil => rfl
  | cons a l ih =>
      cases l with
      | nil => rfl
      | cons b t =>
          rw [List.map_cons, getLast?_cons_ne _ _ (by simp),
            getLast?_cons_ne _ _ (by simp)]
          exact ih

/-- **C10**: when the cooperative stop flag trips after `k` completed steps
(`1 ≤ k < L`, `L` the number of beam states) inside repeat `r` of a run that
passes its preconditions, a union result for that partial repeat is still
computed and appended: the run yields exactly `r + 1` union results (one per
repeat that started), `r * L + k` step results, and its last union result is
the aggregate over exactly the `k` steps completed before the stop. -/
theorem c10_partial_union (lut : CorrectedBeamLUT) (tags : List Tag)
    (cfg : RunConfig) (env : ℕ → ℕ → Inventory) (r k : ℕ)
    (hreader : cfg.reader_connected = true)
    (hmcu : (1 : ℤ) ∈ cfg.active_antennas → cfg.mcu_connected = true)
    (hr : r < cfg.repeats) (_hk1 : 1 ≤ k)
    (hk : k < (beamStepsFor lut cfg).length) :
    (runProtocol lut tags cfg
      (fun j => decide (r * (1 + (beamStepsFor lut cfg).length) + 1 + k ≤ j))
      env).union_results.length = r + 1 ∧
    (runProtocol lut tags cfg
      (fun j => decide (r * (1 + (beamStepsFor lut cfg).length) + 1 + k ≤ j))
      env).step_results.length = r * (beamStepsFor lut cfg).length + k ∧
    (runProtocol lut tags cfg
      (fun j => decide (r * (1 + (beamStepsFor lut cfg).length) + 1 + k ≤ j))
      env).union_results.getLast? =
      some (aggregateOuts tags cfg.active_antennas
        ((beamStepsFor lut cfg).map Prod.fst)
        ((innerSteps (fun _ => false) lut tags cfg.port_config (env r)
          (beamStepsFor lut cfg) 0
          (r * (1 + (beamStepsFor lut cfg).length) + 1)).1.take k)
        (r + 1)) := by
  have hok := runProtocol_ok lut tags cfg
    (fun j => decide (r * (1 + (beamStepsFor lut cfg).length) + 1 + k ≤ j))
    env hreader hmcu
  have hres := outerBlocks_thr_exact
    (r * (1 + (beamStepsFor lut cfg).length) + 1 + k) lut tags cfg
    (beamStepsFor lut cfg) env r k cfg.repeats 0 0 hr hk (by omega)
  simp only [Nat.zero_add] at hres
  have hTk : r * (1 + (beamStepsFor lut cfg).length) + 1 + k - k =
      r * (1 + (beamStepsFor lut cfg).length) + 1 := by omega
  rw [hTk] at hres
  refine ⟨?_, ?_, ?_⟩
  · rw [hok.2.2, List.length_map]
    exact hres.1
  · rw [hok.2.1]
    exact hres.2.1
  · rw [hok.2.2, getLast?_map, hres.2.2]
    rfl

theorem c10_partial_union_witness :
    (0 < 2 ∧ 1 ≤ 1 ∧
      1 < (beamStepsFor ⟨false, [], []⟩ ⟨2, 0, [1, 2], 3, true, true⟩).length) ∧
    ((runProtocol ⟨false, [], []⟩ [] ⟨2, 0, [1, 2], 3, true, true⟩
      (fun j => decide (0 * (1 + (beamStepsFor ⟨false, [], []⟩
        ⟨2, 0, [1, 2], 3, true, true⟩).length) + 1 + 1 ≤ j))
      (fun _ _ => [])).union_results.length = 0 + 1 ∧
    (runProtocol ⟨false, [], []⟩ [] ⟨2, 0, [1, 2], 3, true, true⟩
      (fun j => decide (0 * (1 + (beamStepsFor ⟨false, [], []⟩
        ⟨2, 0, [1, 2], 3, true, true⟩).length) + 1 + 1 ≤ j))
      (fun _ _ => [])).step_results.length =
      0 * (beamStepsFor ⟨false, [], []⟩
        ⟨2, 0, [1, 2], 3, true, true⟩).length + 1 ∧
    (runProtocol ⟨false, [], []⟩ [] ⟨2, 0, [1, 2], 3, true, true⟩
      (fun j => decide (0 * (1 + (beamStepsFor ⟨false, [], []⟩
        ⟨2, 0, [1, 2], 3, true, true⟩).length) + 1 + 1 ≤ j))
      (fun _ _ => [])).union_results.getLast? =
      some (aggregateOuts [] [1, 2]
        ((beamStepsFor ⟨false, [], []⟩ ⟨2, 0, [1, 2], 3, true, true⟩).map
          Prod.fst)
        ((innerSteps (fun _ => false) ⟨false, [], []⟩ [] 0 ((fun _ _ => []) 0)
          (beamStepsFor ⟨false, [], []⟩ ⟨2, 0, [1, 2], 3, true, true⟩) 0
          (0 * (1 + (beamStepsFor ⟨false, [], []⟩
            ⟨2, 0, [1, 2], 3, true, true⟩).length) + 1)).1.take 1)
        (0 + 1))) :=
  ⟨⟨by decide, by decide, by decide⟩,
   c10_partial_union ⟨false, [], []⟩ [] ⟨2, 0, [1, 2], 3, true, true⟩
     (fun _ _ => []) 0 1 rfl (fun _ => rfl) (by decide) (by decide) (by decide)⟩
